/-
Verification of the BIP scraper core (src/bip_scraper/scraper.py) against its
specification.  The Python functions are shallowly embedded as executable Lean
definitions over an HTML node tree; network and external-library effects
(requests, feedparser, pypdf, pdf2image/pytesseract) are supplied as explicit
oracle functions, so every embedded function is pure and total.

Python strings are modelled by Lean `String` (both are sequences of unicode
code points, so Python `len`/slicing agree with `String.length`/`List.take`
on `String.data`).  All string helpers below are written by structural
recursion on `List Char` so that concrete evaluations reduce in the kernel.
-/
import Mathlib

set_option maxRecDepth 100000

namespace BipScraper

/-! ## String helpers (models of the Python string operations used) -/

/-- Model of Python `str.strip()`: drop leading and trailing whitespace. -/
def pyStrip (s : String) : String :=
  ⟨((s.data.dropWhile Char.isWhitespace).reverse.dropWhile Char.isWhitespace).reverse⟩

/-- Lower-casing of one character: ASCII plus the Polish upper-case letters
that occur in the scraper's keyword vocabulary.  Models Python `str.lower`
on the inputs this program inspects. -/
def pyLowerChar (c : Char) : Char :=
  if c = 'Ą' then 'ą' else if c = 'Ć' then 'ć' else if c = 'Ę' then 'ę'
  else if c = 'Ł' then 'ł' else if c = 'Ń' then 'ń' else if c = 'Ó' then 'ó'
  else if c = 'Ś' then 'ś' else if c = 'Ź' then 'ź' else if c = 'Ż' then 'ż'
  else c.toLower

/-- Model of Python `str.lower()`. -/
def pyLower (s : String) : String := ⟨s.data.map pyLowerChar⟩

/-- `needle` occurs as a contiguous sublist of the second argument. -/
def listInfix (needle : List Char) : List Char → Bool
  | [] => needle.isEmpty
  | c :: cs => needle.isPrefixOf (c :: cs) || listInfix needle cs

/-- Model of Python `needle in hay` (substring containment). -/
def strContains (hay needle : String) : Bool :=
  listInfix needle.data hay.data

/-- Model of Python `s.startswith(p)`. -/
def pyStartsWith (s p : String) : Bool := p.data.isPrefixOf s.data

/-- Model of Python `s.endswith(p)`. -/
def pyEndsWith (s p : String) : Bool := p.data.reverse.isPrefixOf s.data.reverse

/-- Model of Python slicing `s[:n]`. -/
def pyTake (s : String) (n : Nat) : String := ⟨s.data.take n⟩

/-- Model of Python `s.replace("\\", "/")` (single-character replacement). -/
def replaceBackslash (s : String) : String :=
  ⟨s.data.map (fun c => if c = '\\' then '/' else c)⟩

/-- `joinWith sep ss` models Python `sep.join(ss)`. -/
def joinWith (sep : String) : List String → String
  | [] => ""
  | [s] => s
  | s :: rest => s ++ sep ++ joinWith sep rest

/-- Concatenation of a list of strings (Python `"".join` / repeated `+=`). -/
def joinAll : List String → String
  | [] => ""
  | s :: rest => s ++ joinAll rest

/-- Split a character list into maximal whitespace-free words. -/
def wordsAux : List Char → List Char → List (List Char)
  | [], acc => if acc.isEmpty then [] else [acc.reverse]
  | c :: cs, acc =>
    if c.isWhitespace then
      if acc.isEmpty then wordsAux cs [] else acc.reverse :: wordsAux cs []
    else wordsAux cs (c :: acc)

/-- Whitespace-separated words of a string (how BeautifulSoup splits the
multi-valued `class` attribute). -/
def pyWords (s : String) : List (List Char) := wordsAux s.data []

/-- `splitAtInfix pat cs` finds the first occurrence of `pat` in `cs` and
returns the part before it and the part after it. -/
def splitAtInfix (pat : List Char) : List Char → Option (List Char × List Char)
  | [] => if pat.isEmpty then some ([], []) else none
  | c :: cs =>
    if pat.isPrefixOf (c :: cs) then some ([], (c :: cs).drop pat.length)
    else match splitAtInfix pat cs with
      | some (pre, post) => some (c :: pre, post)
      | none => none

/-! ## URL helpers -/

/-- `f"{urlparse(u).scheme}://{urlparse(u).netloc}"`: the origin of a URL. -/
def schemeNetloc (u : String) : String :=
  match splitAtInfix "://".data u.data with
  | some (pre, post) => (⟨pre⟩ : String) ++ "://" ++ ⟨post.takeWhile (· ≠ '/')⟩
  | none => "://"

/-- Python `u.rsplit("/", 1)[0]`: everything before the last `/`. -/
def dropLastSegment (u : String) : String :=
  ⟨((u.data.reverse.dropWhile (· ≠ '/')).drop 1).reverse⟩

/-- Model of `urllib.parse.urljoin` restricted to the URL shapes this program
produces: absolute `http(s)` references are kept, path-absolute references
are resolved against the base's origin, and other relative references
replace the last path segment of the base. -/
def urljoinModel (base href : String) : String :=
  if href = "" then base
  else if pyStartsWith href "http" then href
  else if pyStartsWith href "/" then schemeNetloc base ++ href
  else (if strContains base "/" then dropLastSegment base ++ "/" else base ++ "/") ++ href

/-- `_normalize_list_url` (scraper.py lines 110-115). -/
def normalizeListUrl (base href : String) : String :=
  if href = "" || pyStartsWith href "#" then ""
  else if pyStartsWith href "http" then href
  else urljoinModel base href

/-- The base URL computed at the top of `fetch_rejestr_zmian` (lines 150-153)
and of `fetch_html_list` (lines 380-382). -/
def pageBase (listUrl : String) : String :=
  let b := if strContains listUrl "/" then dropLastSegment listUrl ++ "/"
           else listUrl ++ "/"
  if pyStartsWith b "http" then b else schemeNetloc listUrl ++ "/"

/-! ## HTML node trees (model of a parsed BeautifulSoup document) -/

/-- A parsed HTML node: an element with a tag name, attributes and children,
or a text node (bs4 `NavigableString`). -/
inductive Node where
  | elem (tag : String) (attrs : List (String × String)) (children : List Node)
  | text (s : String)
deriving Repr

/-- Structural equality of nodes; models bs4 `Tag.__eq__`, which compares tag
name, attributes and contents recursively.  (bs4 compares attributes as a
dict; this model compares them as the ordered list they were parsed from,
which agrees whenever the compared nodes come from the same parse.) -/
def nodeBeq : Node → Node → Bool
  | .text s, .text t => s == t
  | .elem t1 a1 c1, .elem t2 a2 c2 => t1 == t2 && a1 == a2 && nodesBeq c1 c2
  | _, _ => false
where
  nodesBeq : List Node → List Node → Bool
  | [], [] => true
  | x :: xs, y :: ys => nodeBeq x y && nodesBeq xs ys
  | _, _ => false

def Node.tagName : Node → String
  | .elem t _ _ => t
  | .text _ => ""

def Node.childNodes : Node → List Node
  | .elem _ _ cs => cs
  | .text _ => []

/-- Python truthiness of a bs4 object: `Tag.__len__` is the number of
contents, so an element with no children is falsy; an empty
`NavigableString` is falsy. -/
def Node.pyTruthy : Node → Bool
  | .elem _ _ cs => !cs.isEmpty
  | .text s => s ≠ ""

def Node.attr (n : Node) (key : String) : Option String :=
  match n with
  | .elem _ attrs _ => (attrs.find? (fun p => p.1 == key)).map (·.2)
  | .text _ => none

mutual
/-- All descendants of a node in document (preorder) order, the order in
which bs4 `find_all` reports matches.  The node itself is not included,
matching bs4. -/
def Node.descendants : Node → List Node
  | .text _ => []
  | .elem _ _ cs => descendantsList cs

/-- Preorder traversal of a forest: each root followed by its descendants. -/
def descendantsList : List Node → List Node
  | [] => []
  | n :: ns => n :: (n.descendants ++ descendantsList ns)
end

/-- bs4 `find_all(pred)` over descendants. -/
def Node.findAllP (n : Node) (p : Node → Bool) : List Node :=
  n.descendants.filter p

/-- bs4 `find(pred)`: first matching descendant. -/
def Node.findP (n : Node) (p : Node → Bool) : Option Node :=
  (n.findAllP p).head?

def Node.isTagB (t : String) (n : Node) : Bool := n.tagName == t

/-- bs4 `find_all("t")`. -/
def Node.findAllTag (n : Node) (t : String) : List Node :=
  n.findAllP (Node.isTagB t)

/-- bs4 `find("t")`. -/
def Node.findTag (n : Node) (t : String) : Option Node :=
  n.findP (Node.isTagB t)

/-- An anchor element carrying an `href` attribute (`find("a", href=True)`:
the attribute must be present, its value may be empty). -/
def isAnchorHref (n : Node) : Bool :=
  n.tagName == "a" && (n.attr "href").isSome

mutual
/-- All text strings below (and at) a node, in document order. -/
def Node.texts : Node → List String
  | .text s => [s]
  | .elem _ _ cs => textsList cs

/-- Text strings of a forest in document order. -/
def textsList : List Node → List String
  | [] => []
  | n :: ns => n.texts ++ textsList ns
end

/-- bs4 `get_text()`: concatenation of all contained strings. -/
def Node.getText (n : Node) : String := joinAll n.texts

/-- bs4 `get_text(strip=True)`: each string stripped, empties dropped,
concatenated. -/
def Node.getTextStrip (n : Node) : String :=
  joinAll (n.texts.filterMap (fun s => let t := pyStrip s; if t = "" then none else some t))

/-- bs4 `get_text(" ", strip=True)`: stripped non-empty strings joined by a
single space. -/
def Node.getTextSpaceStrip (n : Node) : String :=
  joinWith " " (n.texts.filterMap (fun s => let t := pyStrip s; if t = "" then none else some t))

/-- bs4 `.string`: the single string below a tag, if it has exactly one
child chain ending in a text node. -/
def Node.string? : Node → Option String
  | .text s => some s
  | .elem _ _ [c] => c.string?
  | .elem _ _ _ => none

/-- Class attribute split into class names (bs4 multi-valued attribute). -/
def hasClass (n : Node) (c : String) : Bool :=
  (pyWords ((n.attr "class").getD "")).contains c.data

/-! ## Models of the regular expressions used by the scraper

The regexes are fixed patterns; each is embedded as a hand-written matcher
with Python `re` semantics (leftmost match, greedy quantifiers with
backtracking).  Since quantified pieces are separated by disjoint character
classes, greedy matching needs backtracking only for `\d{1,2}`. -/

/-- The ways `\d{1,2}` can consume the head of `cs`, greedy alternative
first; each result is the remaining input. -/
def digits12 (cs : List Char) : List (List Char) :=
  match cs with
  | a :: b :: rest =>
    if a.isDigit then
      if b.isDigit then [rest, b :: rest] else [b :: rest]
    else []
  | [a] => if a.isDigit then [[]] else []
  | [] => []

/-- `\d{4}` at the head of the input; returns the remainder. -/
def digits4 : List Char → Option (List Char)
  | a :: b :: c :: d :: rest =>
    if a.isDigit && b.isDigit && c.isDigit && d.isDigit then some rest else none
  | _ => none

/-- `\d{2}` at the head of the input; returns the remainder. -/
def digits2 : List Char → Option (List Char)
  | a :: b :: rest => if a.isDigit && b.isDigit then some rest else none
  | _ => none

def isDateSep (c : Char) : Bool := c = '/' || c = '.' || c = '-'

/-- `re` pattern `(\d{1,2})[/.-](\d{1,2})[/.-](\d{4})` matching at the head
of the input (scraper.py line 125). -/
def numericDateAt (cs : List Char) : Bool :=
  (digits12 cs).any fun r1 =>
    match r1 with
    | s1 :: r2 =>
      isDateSep s1 &&
      ((digits12 r2).any fun r3 =>
        match r3 with
        | s2 :: r4 => isDateSep s2 && (digits4 r4).isSome
        | [] => false)
    | [] => false

/-- `re.search` for the numeric date pattern: a match at some position. -/
def searchNumericDate (s : String) : Bool :=
  go s.data
where
  go : List Char → Bool
  | [] => false
  | c :: cs => numericDateAt (c :: cs) || go cs

/-- The Polish month abbreviations of the two month-name date regexes
(lines 128 and 300-303; both lists contain the same twelve stems). -/
def monthStems : List (List Char) :=
  ["sty", "lut", "mar", "kwi", "maj", "cze", "lip", "sie", "wrz", "paź",
   "lis", "gru"].map String.data

/-- Case-insensitive match of one month stem at the head of the input. -/
def monthAt (cs : List Char) : Option (List Char) :=
  match cs with
  | a :: b :: c :: rest =>
    if monthStems.contains [pyLowerChar a, pyLowerChar b, pyLowerChar c] then
      some rest
    else none
  | _ => none

/-- `[a-z]*` under `re.I`: a maximal run of ASCII letters. -/
def spanAsciiAlpha (cs : List Char) : List Char :=
  cs.dropWhile fun c => ('a' ≤ c && c ≤ 'z') || ('A' ≤ c && c ≤ 'Z')

/-- `\s+`: at least one whitespace character, maximal run. -/
def spanWs1 (cs : List Char) : Option (List Char) :=
  match cs with
  | c :: rest => if c.isWhitespace then some (rest.dropWhile Char.isWhitespace) else none
  | [] => none

/-- `re` pattern `(\d{1,2})\s+(lut|sty|...)[a-z]*\s+(\d{4})` (with `re.I`)
matching at the head of the input (scraper.py line 128). -/
def monthDateAt (cs : List Char) : Bool :=
  (digits12 cs).any fun r1 =>
    match spanWs1 r1 with
    | none => false
    | some r2 =>
      match monthAt r2 with
      | none => false
      | some r3 =>
        match spanWs1 (spanAsciiAlpha r3) with
        | none => false
        | some r4 => (digits4 r4).isSome

/-- `re.search` for the month-name date pattern. -/
def searchMonthDate (s : String) : Bool :=
  go s.data
where
  go : List Char → Bool
  | [] => false
  | c :: cs => monthDateAt (c :: cs) || go cs

/-- The "Ostatnio dodane" block date regex (lines 300-303):
`\d{1,2}\s+(sty|...)[a-z]*\s+\d{4}\s*,?\s*\d{1,2}:\d{2}`.
`blockDateMatchAt cs` returns the length of the (greedy, leftmost-biased)
match starting at the head of `cs`, if any. -/
def blockDateMatchAt (cs : List Char) : Option Nat :=
  (digits12 cs).findSome? fun r1 =>
    match spanWs1 r1 with
    | none => none
    | some r2 =>
      match monthAt r2 with
      | none => none
      | some r3 =>
        match spanWs1 (spanAsciiAlpha r3) with
        | none => none
        | some r4 =>
          match digits4 r4 with
          | none => none
          | some r5 =>
            let r6 := r5.dropWhile Char.isWhitespace
            let r7 := match r6 with
                      | ',' :: rest => rest
                      | _ => r6
            let r8 := r7.dropWhile Char.isWhitespace
            (digits12 r8).findSome? fun r9 =>
              match r9 with
              | ':' :: r10 =>
                match digits2 r10 with
                | some r11 => some (cs.length - r11.length)
                | none => none
              | _ => none

/-- `re.search` for the block date pattern, returning `m.group(0)`: the
matched substring at the leftmost matching position. -/
def blockDateSearch (s : String) : Option String :=
  go s.data
where
  go : List Char → Option String
  | [] => none
  | c :: cs =>
    match blockDateMatchAt (c :: cs) with
    | some n => some ⟨(c :: cs).take n⟩
    | none => go cs

/-- `re.search(r'"ajax":\s*"([^"]+)"', s)` (line 182): look for the literal
`"ajax":`, optional whitespace, then a quoted non-empty URL; return the
captured group of the leftmost match. -/
def ajaxUrlAt (cs : List Char) : Option String :=
  if "\"ajax\":".data.isPrefixOf cs then
    let r := (cs.drop 7).dropWhile Char.isWhitespace
    match r with
    | '"' :: r2 =>
      let u := r2.takeWhile (· ≠ '"')
      if u.isEmpty then none
      else match r2.drop u.length with
        | '"' :: _ => some ⟨u⟩
        | _ => none
    | _ => none
  else none

/-- Leftmost `"ajax": "..."` capture in a script body. -/
def extractAjaxUrl (s : String) : Option String :=
  go s.data
where
  go : List Char → Option String
  | [] => none
  | c :: cs =>
    match ajaxUrlAt (c :: cs) with
    | some u => some u
    | none => go cs

/-! ## Data model -/

/-- An attachment dict as built by `fetch_entry_details` (lines 562-567). -/
structure Attachment where
  name : String
  url : String
  textContent : String
  size : Nat
deriving Repr, DecidableEq

/-- The `BIPEntry` dataclass (lines 21-31).  The debugging payload `raw`
(an opaque dict never read by the core) is omitted from the model. -/
structure BIPEntry where
  title : String
  url : String
  summary : String
  content : String
  published : Option String
  sourceName : String
  attachments : List Attachment := []
deriving Repr, DecidableEq

/-- One row of a DataTables AJAX JSON response, after the key lookups
`row.get('0') or row.get(0)` etc. (lines 222-224).  `rawTitle = none` models
a missing or falsy field `0`; when present it carries the raw string value
together with its `BeautifulSoup` parse (HTML parsing itself is not
re-implemented).  `dateStr`/`author` model fields `3`/`4` with `""` for
missing values, after `str()`. -/
structure AjaxRow where
  rawTitle : Option (String × Node)
  dateStr : String := ""
  author : String := ""

/-- A feed item as normalized by `feedparser`.  `title`/`link`/`summary` use
`""` for missing (Python-falsy) values; `content` models the value obtained
by lines 79-83 (the list/`.value` juggling of `e.get("content")`), and
`published` the ISO string or raw text computed by lines 84-94; both are
external-library plumbing collapsed to their resulting string. -/
structure FeedItem where
  title : String := ""
  link : String := ""
  summary : String := ""
  content : String := ""
  published : Option String := none

/-- A parsed feed: `feed.feed.get("link")` (`""` if missing) and the items. -/
structure Feed where
  feedLink : String := ""
  items : List FeedItem := []

/-- The result of downloading a candidate attachment. -/
structure DownloadResp where
  status : Nat
  contentType : String
  content : List Nat    -- the response body bytes

/-- The external world: every network fetch and external-library call the
scraper performs, as pure oracles.  `Except.error` models a raised
exception (transport failure or non-2xx via `raise_for_status`, malformed
JSON, a pypdf / pdf2image / tesseract error). -/
structure World where
  /-- GET of a listing or detail page, parsed with BeautifulSoup. -/
  page : String → Except Unit Node
  /-- GET of a DataTables AJAX endpoint: the JSON rows found under
  `data` / `aaData` (`[]` when neither key is present). -/
  ajax : String → Except Unit (List AjaxRow)
  /-- GET of an RSS/Atom feed, parsed with feedparser. -/
  feed : String → Except Unit Feed
  /-- GET of a candidate attachment file. -/
  download : String → Except Unit DownloadResp
  /-- pypdf digital extraction: per page, `page.extract_text()`
  (`none` models a `None` result).  `Except.error` is a pypdf exception. -/
  pdfDigital : List Nat → Except String (List (Option String))
  /-- OCR tier: pdf2image rasterization plus per-image
  `pytesseract.image_to_string`.  `Except.error` is an OCR exception. -/
  pdfOcr : List Nat → Except String (List String)

/-! ## `extract_text_from_pdf` (lines 470-503) -/

/-- `"\n".join(text_parts).strip()` where `text_parts` collects the truthy
per-page extraction results (lines 475-480). -/
def digitalTextOf (pages : List (Option String)) : String :=
  pyStrip (joinWith "\n" (pages.filterMap fun p =>
    p.bind fun s => if s = "" then none else some s))

/-- `ocr_text`: per-image text with `"\n"` appended, concatenated
(lines 490-494). -/
def ocrTextOf (images : List String) : String :=
  joinAll (images.map (· ++ "\n"))

/-- `extract_text_from_pdf`, with the two external tiers passed as already
performed oracle results.  Mirrors lines 470-503: a digital-tier exception
leaves `text = ""`; OCR runs only when `len(text) < 50`; the OCR text
replaces `text` when its stripped length is larger; if OCR raises and no
text was recovered, a placeholder string is returned. -/
def extractTextFromPdf (digital : Except String (List (Option String)))
    (ocr : Except String (List String)) : String :=
  let text : String :=
    match digital with
    | .ok pages => digitalTextOf pages
    | .error _ => ""
  if text.length < 50 then
    match ocr with
    | .ok images =>
      let ocrText := ocrTextOf images
      if text.length < (pyStrip ocrText).length then ocrText else text
    | .error e =>
      if text = "" then "[Błąd odczytu PDF i OCR: " ++ e ++ "]" else text
  else text

/-- `extract_text_from_pdf` applied to a downloaded body via the world's
pypdf / OCR oracles. -/
def extractPdfBytes (w : World) (content : List Nat) : String :=
  extractTextFromPdf (w.pdfDigital content) (w.pdfOcr content)

/-! ## `fetch_entry_details` (lines 506-572) -/

/-- The attachment-text cap (line 560):
`raw_text[:5000] + ("..." if len(raw_text) > 5000 else "")`. -/
def trimAttachment (raw : String) : String :=
  pyTake raw 5000 ++ (if 5000 < raw.length then "..." else "")

/-- The attachment keyword vocabulary (line 542). -/
def attachKeywords : List String := ["załącznik", "zalacznik", "pobierz", "treść"]

/-- The candidate filter of lines 535-545: the resolved href ends in `.pdf`,
or the link text contains an attachment keyword and the raw href contains
`"pdf"`. -/
def attachmentCandidate (baseUrl : String) (link : Node) : Bool :=
  let href := pyStrip ((link.attr "href").getD "")
  let text := pyLower link.getTextSpaceStrip
  let fullUrl := urljoinModel baseUrl href
  let isPdfExt := pyEndsWith (pyLower fullUrl) ".pdf"
  let isAttachmentText := attachKeywords.any fun kw => strContains text kw
  isPdfExt || (isAttachmentText && strContains (pyLower href) "pdf")

/-- The candidate loop of lines 534-569: dedup by absolute URL, download,
accept only `200` + `application/pdf`, extract and cap the text.  A failed
download (`Except.error`) is logged and skipped. -/
def processCandidates (w : World) (baseUrl : String) :
    List Node → List String → List Attachment → List Attachment
  | [], _, acc => acc
  | link :: rest, uniqueLinks, acc =>
    let href := pyStrip ((link.attr "href").getD "")
    let text := pyLower link.getTextSpaceStrip
    let fullUrl := urljoinModel baseUrl href
    if !attachmentCandidate baseUrl link then
      processCandidates w baseUrl rest uniqueLinks acc
    else if uniqueLinks.contains fullUrl then
      processCandidates w baseUrl rest uniqueLinks acc
    else
      let uniqueLinks := fullUrl :: uniqueLinks
      match w.download fullUrl with
      | .error _ => processCandidates w baseUrl rest uniqueLinks acc
      | .ok fileResp =>
        if fileResp.status == 200 &&
            strContains (pyLower fileResp.contentType) "application/pdf" then
          let rawText := extractPdfBytes w fileResp.content
          let name :=
            if text ≠ "" then text
            else match link.attr "title" with
              | some t => if t ≠ "" then t else "Załącznik"
              | none => "Załącznik"
          let att : Attachment :=
            { name := name, url := fullUrl,
              textContent := trimAttachment rawText,
              size := fileResp.content.length }
          processCandidates w baseUrl rest uniqueLinks (acc ++ [att])
        else processCandidates w baseUrl rest uniqueLinks acc

/-- `fetch_entry_details`: skip direct PDF links; fetch the detail page; scan
all `href`-bearing anchors; append the produced attachments.  Any exception
around the page fetch leaves the entry unchanged (lines 516-517, 571-572). -/
def fetchEntryDetails (w : World) (e : BIPEntry) : BIPEntry :=
  if pyEndsWith (pyLower e.url) ".pdf" then e
  else
    match w.page e.url with
    | .error _ => e
    | .ok soup =>
      let candidates := soup.findAllP isAnchorHref
      { e with attachments := e.attachments ++ processCandidates w e.url candidates [] [] }

/-! ## `fetch_rejestr_zmian` (lines 134-361)

The function is a cascade: an optional DataTables-AJAX escalation (entered
on the guard of line 172), then the static-table tier, the
"Ostatnio dodane" block tier and the generic-link fallback, all sharing one
`seen` set and one `entries` accumulator. -/

/-- `_extract_date_from_cell` (lines 118-131).  `if not cell` is bs4
truthiness (a tag with no contents is falsy). -/
def extractDateFromCell (cell : Node) : Option String :=
  if !cell.pyTruthy then none
  else
    let text := pyStrip cell.getText
    if text = "" || 60 < text.length then none
    else if searchNumericDate text then some text
    else if searchMonthDate text then some text
    else none

/-- Shared mutable scan state: the per-invocation dedup set `seen` and the
`entries` accumulator. -/
structure ScanState where
  seen : List String
  entries : List BIPEntry

/-- `seen.add(url); entries.append(e)`. -/
def ScanState.emit (st : ScanState) (e : BIPEntry) : ScanState :=
  { seen := e.url :: st.seen, entries := st.entries ++ [e] }

/-- Parameters threaded through the cascade. -/
structure RejCtx where
  listUrl : String
  baseUrl : String
  sourceName : String
  maxEntries : Nat

/-- The rejected URL substrings of the table tier (line 269). -/
def badUrlParts : List String := ["javascript:", "mailto:", "#"]

/-- The rejected URL substrings of the generic-link fallback (line 341). -/
def fallbackBadParts : List String := ["javascript:", "mailto:", "#", "rejestr-zmian"]

/-- The date taken for a table row: the first cell that does not contain the
row's anchor and whose text passes `_extract_date_from_cell`
(lines 274-281; the membership test uses bs4 structural equality). -/
def rowPublished (linkEl : Node) : List Node → Option String
  | [] => none
  | c :: rest =>
    if (c.findAllTag "a").any (fun a => nodeBeq a linkEl) then rowPublished linkEl rest
    else
      match extractDateFromCell c with
      | some d => some d
      | none => rowPublished linkEl rest

/-- One row of the static-table tier (lines 260-295).  The returned flag is
`true` when the row triggered the `return entries` of line 295. -/
def staticRowStep (ctx : RejCtx) (st : ScanState) (row : Node) : ScanState × Bool :=
  let cells := row.findAllP fun n => n.tagName == "td" || n.tagName == "th"
  if cells.isEmpty then (st, false)
  else
    match row.findP isAnchorHref with
    | none => (st, false)
    | some linkEl =>
      let href := pyStrip ((linkEl.attr "href").getD "")
      let url := normalizeListUrl ctx.baseUrl href
      if url = "" || st.seen.contains url ||
          badUrlParts.any (fun x => strContains (pyLower url) x) then (st, false)
      else
        let title := pyStrip linkEl.getText
        if title.length < 5 then (st, false)
        else
          let published := rowPublished linkEl cells
          let st := st.emit
            { title := title, url := url, summary := "", content := "",
              published := published, sourceName := ctx.sourceName }
          (st, decide (ctx.maxEntries ≤ st.entries.length))

/-- The shared shape of the four scraping loops: run `step` on each element,
stopping early when it reports that `max_entries` was reached (the `return
entries` statements). -/
def scanLoop (step : ScanState → Node → ScanState × Bool) :
    List Node → ScanState → ScanState × Bool
  | [], st => (st, false)
  | x :: rest, st =>
    let p := step st x
    if p.2 then (p.1, true) else scanLoop step rest p.1

/-- The row loop of one table. -/
def staticRows (ctx : RejCtx) (rows : List Node) (st : ScanState) : ScanState × Bool :=
  scanLoop (staticRowStep ctx) rows st

/-- The table loop of the static tier (line 259): per table, all `tr`
descendants. -/
def staticTables (ctx : RejCtx) : List Node → ScanState → ScanState × Bool
  | [], st => (st, false)
  | t :: rest, st =>
    let p := staticRows ctx (t.findAllTag "tr") st
    if p.2 then (p.1, true) else staticTables ctx rest p.1

mutual
/-- CSS select of line 304:
`.view-content .views-row, .node, .aktualnosc, [class*='last-added'], article, .item`
— preorder collection, tracking whether some ancestor has class
`view-content`. -/
def selectBlocksNode (inViewContent : Bool) : Node → List Node
  | .text _ => []
  | .elem t a cs =>
    let n := Node.elem t a cs
    let matched :=
      (inViewContent && hasClass n "views-row") || hasClass n "node" ||
      hasClass n "aktualnosc" ||
      strContains ((n.attr "class").getD "") "last-added" ||
      t == "article" || hasClass n "item"
    (if matched then [n] else []) ++
      selectBlocksList (inViewContent || hasClass n "view-content") cs

def selectBlocksList (inViewContent : Bool) : List Node → List Node
  | [] => []
  | n :: ns => selectBlocksNode inViewContent n ++ selectBlocksList inViewContent ns
end

def selectBlocks (soup : Node) : List Node := selectBlocksNode false soup

/-- One block of the "Ostatnio dodane" tier (lines 304-333). -/
def blockStep (ctx : RejCtx) (st : ScanState) (block : Node) : ScanState × Bool :=
  match block.findP isAnchorHref with
  | none => (st, false)
  | some link =>
    let href := pyStrip ((link.attr "href").getD "")
    let url := normalizeListUrl ctx.baseUrl href
    if url = "" || st.seen.contains url || strContains (pyLower href) "javascript:" then
      (st, false)
    else
      let title := pyStrip link.getText
      if title.length < 5 then (st, false)
      else
        let published := (blockDateSearch block.getText).map pyStrip
        let st := st.emit
          { title := title, url := url, summary := "", content := "",
            published := published, sourceName := ctx.sourceName }
        (st, decide (ctx.maxEntries ≤ st.entries.length))

/-- The block loop. -/
def blocksPhase (ctx : RejCtx) (blocks : List Node) (st : ScanState) : ScanState × Bool :=
  scanLoop (blockStep ctx) blocks st

/-- Python `a or b` on bs4 find results: an empty tag is falsy. -/
def orTruthy (a b : Option Node) : Option Node :=
  match a with
  | some n => if n.pyTruthy then some n else b
  | none => b

/-- Line 336-337: `main = soup.find("main") or soup.find("article") or
soup.find(id="content") or soup.body`, followed by `if main:`. -/
def mainRegion (soup : Node) : Option Node :=
  let cand :=
    orTruthy (soup.findTag "main") (orTruthy (soup.findTag "article")
      (orTruthy (soup.findP fun n => n.attr "id" == some "content")
        (soup.findTag "body")))
  match cand with
  | some n => if n.pyTruthy then some n else none
  | none => none

/-- One anchor of the generic-link fallback (lines 338-359). -/
def fallbackStep (ctx : RejCtx) (st : ScanState) (link : Node) : ScanState × Bool :=
  let href := pyStrip ((link.attr "href").getD "")
  let url := normalizeListUrl ctx.baseUrl href
  if url = "" || st.seen.contains url ||
      fallbackBadParts.any (fun x => strContains (pyLower url) x) then (st, false)
  else
    let title := pyStrip link.getText
    if title.length < 10 then (st, false)
    else
      let st := st.emit
        { title := title, url := url, summary := "", content := "",
          published := none, sourceName := ctx.sourceName }
      (st, decide (ctx.maxEntries ≤ st.entries.length))

/-- The fallback anchor loop. -/
def fallbackLinks (ctx : RejCtx) (links : List Node) (st : ScanState) : ScanState × Bool :=
  scanLoop (fallbackStep ctx) links st

/-- The non-AJAX part of `fetch_rejestr_zmian` (lines 259-361): static-table
tier with early return; `if entries: return entries` (line 298); block tier
with early return; generic-link fallback; final `return entries`. -/
def cascadeTiers (listUrl sourceName : String) (maxEntries : Nat) (soup : Node) :
    List BIPEntry :=
  let ctx : RejCtx := ⟨listUrl, pageBase listUrl, sourceName, maxEntries⟩
  let p1 := staticTables ctx (soup.findAllTag "table") ⟨[], []⟩
  if p1.2 then p1.1.entries
  else if !p1.1.entries.isEmpty then p1.1.entries
  else
    let p2 := blocksPhase ctx (selectBlocks soup) p1.1
    if p2.2 then p2.1.entries
    else
      match mainRegion soup with
      | none => p2.1.entries
      | some main => (fallbackLinks ctx (main.findAllP isAnchorHref) p2.1).1.entries

/-- The per-table emptiness test of lines 163-170: a `tbody` containing a
`tr`, or a direct `tr` with no `thead` present, makes the table non-empty. -/
def tableNonempty (t : Node) : Bool :=
  (match t.findTag "tbody" with
   | some tb => tb.pyTruthy && (tb.findTag "tr").isSome
   | none => false) ||
  ((t.findTag "tr").isSome && (t.findTag "thead").isNone)

/-- The guard of line 172, `if not tables or is_empty_table:`: the
dynamic-registry escalation block is entered when the page has no `table`
element at all, or when every table is structurally empty. -/
def dynamicEscalationEntered (soup : Node) : Bool :=
  let tables := soup.findAllTag "table"
  tables.isEmpty || tables.all fun t => !tableNonempty t

/-- The script scan of lines 178-185: the first script whose (truthy) string
contains `.DataTable` and `ajax` and yields a regex capture. -/
def findAjaxUrl (scripts : List Node) : Option String :=
  scripts.findSome? fun sc =>
    match sc.string? with
    | some s =>
      if s ≠ "" && strContains s ".DataTable" && strContains s "ajax" then
        extractAjaxUrl s
      else none
    | none => none

/-- One AJAX row mapped to an entry (lines 214-251): field `0` parsed for an
anchor (title and site-root-resolved URL), falling back to the row's plain
text with the listing URL as placeholder; fields `3`/`4` folded into
`published`, `summary` and `content`.  A row with a falsy field `0` emits
nothing. -/
def ajaxRowEntry (listUrl sourceName : String) (row : AjaxRow) : Option BIPEntry :=
  match row.rawTitle with
  | none => none
  | some (rawStr, parsed) =>
    let fallback : String × String :=
      (let t := parsed.getTextStrip; if t ≠ "" then t else rawStr, listUrl)
    let tu : String × String :=
      match parsed.findTag "a" with
      | some link =>
        if link.pyTruthy && ((link.attr "href").getD "") ≠ "" then
          let href := replaceBackslash ((link.attr "href").getD "")
          (link.getTextStrip,
           if pyStartsWith href "/" then schemeNetloc listUrl ++ href else href)
        else fallback
      | none => fallback
    some
      { title := tu.1, url := tu.2,
        summary := "Data: " ++ row.dateStr ++ ". Autor: " ++ row.author,
        content := "Log: " ++ tu.1 ++ ". Autor: " ++ row.author ++
                   ". Data: " ++ row.dateStr,
        published := some row.dateStr,
        sourceName := sourceName, attachments := [] }

/-- The AJAX row loop (lines 214-251): stop once `max_entries` entries have
accumulated; no dedup set is consulted. -/
def ajaxEntriesLoop (listUrl sourceName : String) (maxEntries : Nat) :
    List AjaxRow → List BIPEntry → List BIPEntry
  | [], acc => acc
  | row :: rest, acc =>
    if maxEntries ≤ acc.length then acc
    else
      match ajaxRowEntry listUrl sourceName row with
      | none => ajaxEntriesLoop listUrl sourceName maxEntries rest acc
      | some e => ajaxEntriesLoop listUrl sourceName maxEntries rest (acc ++ [e])

/-- The dynamic-registry escalation (lines 158-257): `some es` exactly when
the code's early `return entries` of line 254 fires; in every other case
(guard not entered, no AJAX URL found, fetch/JSON error, zero entries)
control falls through to the static tier. -/
def ajaxPhase (w : World) (listUrl sourceName : String) (maxEntries : Nat)
    (soup : Node) : Option (List BIPEntry) :=
  if dynamicEscalationEntered soup then
    match findAjaxUrl (soup.findAllTag "script") with
    | some ajaxUrl =>
      let fullAjaxUrl :=
        if pyStartsWith ajaxUrl "/" then schemeNetloc listUrl ++ ajaxUrl else ajaxUrl
      match w.ajax fullAjaxUrl with
      | .ok rows =>
        let es := ajaxEntriesLoop listUrl sourceName maxEntries rows []
        if es.isEmpty then none else some es
      | .error _ => none
    | none => none
  else none

/-- `fetch_rejestr_zmian` applied to an already fetched and parsed listing
page (the Python default for `max_entries` is 25). -/
def fetchRejestrZmianOn (w : World) (listUrl sourceName : String) (maxEntries : Nat)
    (soup : Node) : List BIPEntry :=
  match ajaxPhase w listUrl sourceName maxEntries soup with
  | some es => es
  | none => cascadeTiers listUrl sourceName maxEntries soup

/-- `fetch_rejestr_zmian` including the initial page fetch (lines 146-147). -/
def fetchRejestrZmian (w : World) (listUrl sourceName : String) (maxEntries : Nat) :
    Except Unit (List BIPEntry) :=
  (w.page listUrl).map (fetchRejestrZmianOn w listUrl sourceName maxEntries)

/-! ## `fetch_html_list` (lines 364-428) -/

mutual
/-- CSS select for `li a`: anchors having an `li` ancestor, document order. -/
def liASelNode (inLi : Bool) : Node → List Node
  | .text _ => []
  | .elem t a cs =>
    (if inLi && t == "a" then [Node.elem t a cs] else []) ++
      liASelList (inLi || t == "li") cs

def liASelList (inLi : Bool) : List Node → List Node
  | [] => []
  | n :: ns => liASelNode inLi n ++ liASelList inLi ns
end

/-- The selector sequence of lines 388-398, in order. -/
def htmlSelectors : List (Node → List Node) :=
  [ fun s => s.findAllTag "article",
    fun s => s.findAllP (fun n => hasClass n "news-item"),
    fun s => s.findAllP (fun n => hasClass n "ogloszenie"),
    fun s => s.findAllP (fun n => hasClass n "aktualnosc"),
    fun s => s.findAllP (fun n => hasClass n "komunikat"),
    fun s => s.findAllP (fun n => strContains ((n.attr "class").getD "") "news"),
    fun s => s.findAllP (fun n => strContains ((n.attr "class").getD "") "ogloszen"),
    fun s => s.findAllP (fun n => hasClass n "list-item"),
    fun s => liASelNode false s ]

/-- One selected element of `fetch_html_list` (lines 399-426). -/
def htmlListStep (base sourceName : String) (maxEntries : Nat) (st : ScanState)
    (el : Node) : ScanState × Bool :=
  let link? := if el.tagName == "a" then some el else el.findTag "a"
  match link? with
  | none => (st, false)
  | some link =>
    if !link.pyTruthy || ((link.attr "href").getD "") = "" then (st, false)
    else
      let href := pyStrip ((link.attr "href").getD "")
      let url := normalizeListUrl base href
      if url = "" || st.seen.contains url ||
          badUrlParts.any (fun x => strContains (pyLower url) x) then (st, false)
      else
        let title := let t := pyStrip link.getText; if t = "" then "(bez tytułu)" else t
        if title.length < 3 then (st, false)
        else
          let st := st.emit
            { title := title, url := url, summary := "", content := "",
              published := none, sourceName := sourceName }
          (st, decide (maxEntries ≤ st.entries.length))

/-- Element loop for one selector. -/
def htmlListEls (base sourceName : String) (maxEntries : Nat) (els : List Node)
    (st : ScanState) : ScanState × Bool :=
  scanLoop (htmlListStep base sourceName maxEntries) els st

/-- Selector loop. -/
def htmlListSels (soup : Node) (base sourceName : String) (maxEntries : Nat) :
    List (Node → List Node) → ScanState → ScanState × Bool
  | [], st => (st, false)
  | sel :: rest, st =>
    let p := htmlListEls base sourceName maxEntries (sel soup) st
    if p.2 then (p.1, true)
    else htmlListSels soup base sourceName maxEntries rest p.1

/-- `fetch_html_list` on an already fetched page. -/
def fetchHtmlListOn (listUrl sourceName : String) (maxEntries : Nat) (soup : Node) :
    List BIPEntry :=
  (htmlListSels soup (pageBase listUrl) sourceName maxEntries htmlSelectors ⟨[], []⟩).1.entries

/-- `fetch_html_list` including the page fetch. -/
def fetchHtmlList (w : World) (listUrl sourceName : String) (maxEntries : Nat) :
    Except Unit (List BIPEntry) :=
  (w.page listUrl).map (fetchHtmlListOn listUrl sourceName maxEntries)

/-! ## `fetch_rss` (lines 55-107) -/

/-- One feed item mapped to an entry (lines 73-106). -/
def rssItemEntry (baseUrl sourceName : String) (item : FeedItem) : BIPEntry :=
  let link :=
    if item.link ≠ "" && !pyStartsWith item.link "http"
    then urljoinModel baseUrl item.link else item.link
  let content := if item.content ≠ "" then item.content else item.summary
  { title := if item.title ≠ "" then item.title else "(bez tytułu)",
    url := link,
    summary := pyTake item.summary 500,
    content := if content ≠ "" then content else item.summary,
    published := item.published,
    sourceName := sourceName, attachments := [] }

/-- `fetch_rss` on a parsed feed: `base_url = feed.feed.get("link") or
rss_url`; the item loop truncates at `max_entries`. -/
def fetchRssOn (rssUrl sourceName : String) (maxEntries : Nat) (f : Feed) :
    List BIPEntry :=
  let baseUrl := if f.feedLink ≠ "" then f.feedLink else rssUrl
  (f.items.take maxEntries).map (rssItemEntry baseUrl sourceName)

/-- `fetch_rss` including the feed fetch. -/
def fetchRss (w : World) (rssUrl sourceName : String) (maxEntries : Nat) :
    Except Unit (List BIPEntry) :=
  (w.feed rssUrl).map (fetchRssOn rssUrl sourceName maxEntries)

/-! ## `fetch_source` and `run_scraper` (lines 431-467, 575-599) -/

/-- A source descriptor from the configuration.  `""` models a missing or
falsy string field and `0` a missing or falsy `max_entries` (Python
`source.get(...) or default`). -/
structure Source where
  name : String := ""
  maxEntries : Nat := 0
  rssUrl : String := ""
  listUrl : String := ""
  rejestrZmian : Bool := false

/-- `name = source.get("name") or "BIP"` (line 440). -/
def sourceDisplayName (src : Source) : String :=
  if src.name ≠ "" then src.name else "BIP"

/-- `max_entries = source.get("max_entries") or 10` (line 441; note that a
configured `0` is falsy and also becomes 10). -/
def sourceMaxEntries (src : Source) : Nat :=
  if src.maxEntries ≠ 0 then src.maxEntries else 10

/-- `fetch_source` (lines 431-467). -/
def fetchSource (w : World) (src : Source) : Except Unit (List BIPEntry) :=
  if src.rssUrl ≠ "" then
    fetchRss w src.rssUrl (sourceDisplayName src) (sourceMaxEntries src)
  else if src.listUrl ≠ "" then
    if src.rejestrZmian then
      fetchRejestrZmian w src.listUrl (sourceDisplayName src) (sourceMaxEntries src)
    else fetchHtmlList w src.listUrl (sourceDisplayName src) (sourceMaxEntries src)
  else .ok []

structure Config where
  sources : List Source := []

/-- `run_scraper` (lines 575-599): per source, fetch the listing, enrich
every entry with `fetch_entry_details`, and accumulate; a failing source is
logged and skipped (`fetch_entry_details` itself never raises). -/
def runScraper (w : World) (cfg : Config) : List BIPEntry :=
  go cfg.sources []
where
  go : List Source → List BIPEntry → List BIPEntry
  | [], acc => acc
  | src :: rest, acc =>
    match fetchSource w src with
    | .error _ => go rest acc
    | .ok entries => go rest (acc ++ entries.map (fetchEntryDetails w))

/-! ## Concrete fixtures used by counterexamples and witnesses -/

/-- An anchor element `<a href=...>...</a>`. -/
def aHref (href txt : String) : Node := .elem "a" [("href", href)] [.text txt]

/-- A world in which every external operation fails. -/
def errWorld : World :=
  { page := fun _ => .error (), ajax := fun _ => .error (),
    feed := fun _ => .error (), download := fun _ => .error (),
    pdfDigital := fun _ => .error "err", pdfOcr := fun _ => .error "err" }

/-- A script tag configuring a DataTables AJAX source (braces written as
`\x7b`/`\x7d`). -/
def dataTablesScript : Node :=
  .elem "script" [] [.text "var t = x.DataTable(\x7b \"ajax\": \"/reg/ajax\" \x7d);"]

/-- An AJAX row whose field `0` holds an anchor to `/zmiana/1`. -/
def ajaxRowFix : AjaxRow :=
  { rawTitle := some ("<a href=/zmiana/1>Nowa zmiana</a>",
      .elem "[document]" [] [aHref "/zmiana/1" "Nowa zmiana"]),
    dateStr := "2026-01-01", author := "Jan" }

/-- A listing page with NO `<table>` element but a DataTables script. -/
def pageNoTable : Node := .elem "[document]" [] [dataTablesScript]

/-- A listing page whose only table has a `tbody` with zero rows, plus the
DataTables script. -/
def pageEmptyTable : Node :=
  .elem "[document]" [] [.elem "table" [] [.elem "tbody" [] []], dataTablesScript]

/-- World where the AJAX endpoint returns a single row. -/
def worldAjaxOne : World := { errWorld with ajax := fun _ => .ok [ajaxRowFix] }

/-- World where the AJAX endpoint returns the same row twice. -/
def worldAjaxDup : World := { errWorld with ajax := fun _ => .ok [ajaxRowFix, ajaxRowFix] }

/-- The entry the AJAX tier derives from `ajaxRowFix`. -/
def ajaxEntryFix (sourceName : String) : BIPEntry :=
  { title := "Nowa zmiana", url := "http://ex.pl/zmiana/1",
    summary := "Data: 2026-01-01. Autor: Jan",
    content := "Log: Nowa zmiana. Autor: Jan. Data: 2026-01-01",
    published := some "2026-01-01", sourceName := sourceName, attachments := [] }

/-- A tableless listing page whose `<main>` holds an `<article>` block with
one anchor and a second, longer-titled anchor outside the block. -/
def pageBlocksMain : Node :=
  .elem "[document]" [] [
    .elem "main" [] [
      .elem "article" [] [aHref "http://ex.pl/a" "Ogłoszenie pierwsze"],
      aHref "http://ex.pl/b" "Zupełnie inny odnośnik"]]

/-- The entry the block tier extracts from `pageBlocksMain`. -/
def blockEntryFix : BIPEntry :=
  { title := "Ogłoszenie pierwsze", url := "http://ex.pl/a", summary := "",
    content := "", published := none, sourceName := "S", attachments := [] }

/-- The additional entry the generic-link fallback appends on
`pageBlocksMain`. -/
def fallbackEntryFix : BIPEntry :=
  { title := "Zupełnie inny odnośnik", url := "http://ex.pl/b", summary := "",
    content := "", published := none, sourceName := "S", attachments := [] }

/-- Specification of one static-table row: anchor title, anchor href, and
the text of the date cell. -/
structure RowSpec where
  title : String
  href : String
  date : String
deriving Repr, DecidableEq

/-- `<tr><td><a href=...>title</a></td><td>date</td></tr>`. -/
def mkRow (r : RowSpec) : Node :=
  .elem "tr" [] [
    .elem "td" [] [aHref r.href r.title],
    .elem "td" [] [.text r.date]]

/-- A listing page consisting of one table whose `tbody` holds the given
rows. -/
def tablePage (rows : List RowSpec) : Node :=
  .elem "[document]" [] [.elem "table" [] [.elem "tbody" [] (rows.map mkRow)]]

/-- The entry the static-table tier produces for a well-formed `RowSpec`. -/
def rowEntry (sourceName : String) (r : RowSpec) : BIPEntry :=
  { title := pyStrip r.title, url := r.href, summary := "", content := "",
    published := some r.date, sourceName := sourceName, attachments := [] }

/-- A detail page holding one attachment anchor with a keyword text. -/
def detailPageKw : Node :=
  .elem "[document]" [] [aHref "/files/doc.pdf?x=1" "pobierz załącznik"]

/-- The entry whose detail page is `detailPageKw`. -/
def entryOg1 : BIPEntry :=
  { title := "Ogłoszenie 1", url := "http://ex.pl/og/1", summary := "",
    content := "", published := none, sourceName := "S" }

/-- World for the attachment-discovery scenario: the detail page holds the
keyword anchor; the download answers `200` / `application/pdf`; pypdf
recovers a short text; OCR rasterizes to nothing. -/
def worldKw : World :=
  { page := fun u => if u = "http://ex.pl/og/1" then .ok detailPageKw else .error (),
    ajax := fun _ => .error (), feed := fun _ => .error (),
    download := fun u =>
      if u = "http://ex.pl/files/doc.pdf?x=1"
      then .ok { status := 200, contentType := "application/pdf",
                 content := [37, 80, 68, 70] }
      else .error (),
    pdfDigital := fun _ => .ok [some "Treść zarządzenia"],
    pdfOcr := fun _ => .ok [] }

/-- The attachment produced in the `worldKw` scenario. -/
def attKw : Attachment :=
  { name := "pobierz załącznik", url := "http://ex.pl/files/doc.pdf?x=1",
    textContent := "Treść zarządzenia", size := 4 }

/-- A 400-character extracted text (the claim's under-cap example). -/
def text400 : String := ⟨List.replicate 400 'a'⟩

/-- Like `worldKw` but pypdf recovers a 400-character text. -/
def world400 : World := { worldKw with pdfDigital := fun _ => .ok [some text400] }

/-- The attachment produced in the `world400` scenario: text stored
unchanged. -/
def att400 : Attachment :=
  { name := "pobierz załącznik", url := "http://ex.pl/files/doc.pdf?x=1",
    textContent := text400, size := 4 }

/-- A 40-character digital extraction result. -/
def digital40 : String := ⟨List.replicate 40 'x'⟩

/-- A 200-character digital extraction result. -/
def digital200 : String := ⟨List.replicate 200 'x'⟩

/-- An OCR page whose assembled text has 41 characters, all whitespace. -/
def ocrBlank40 : List String := [⟨List.replicate 40 ' '⟩]

/-- OCR pages whose assembled text has 120 characters. -/
def ocr120 : List String := [⟨List.replicate 119 'y'⟩]

/-- A feed whose single item has no link. -/
def feedNoLink : Feed :=
  { feedLink := "", items := [{ title := "Ogłoszenie w biuletynie", link := "" }] }

/-- World serving `feedNoLink` at the configured feed URL. -/
def worldFeedNoLink : World :=
  { errWorld with feed := fun u => if u = "http://ex.pl/rss" then .ok feedNoLink else .error () }

/-- A configuration with one feed source. -/
def cfgFeedOnly : Config := { sources := [{ rssUrl := "http://ex.pl/rss" }] }

/-- A table cell whose 61-character text contains a numeric date shape. -/
def longDateCell : Node :=
  .elem "td" [] [.text (⟨List.replicate 51 'a'⟩ ++ "11/02/2026")]

/-! ## Helper lemmas: the `seen`-set invariant of the scraping loops -/

/-- Invariant of the shared scan state: entry urls are pairwise distinct,
non-empty, and all recorded in `seen`. -/
def ScanInv (st : ScanState) : Prop :=
  (st.entries.map (fun e => e.url)).Nodup ∧
  (∀ e ∈ st.entries, e.url ∈ st.seen) ∧
  (∀ e ∈ st.entries, e.url ≠ "")

theorem scanInv_empty : ScanInv ⟨[], []⟩ := by
  refine ⟨List.nodup_nil, ?_, ?_⟩ <;> intro e he <;> cases he

theorem scanInv_emit {st : ScanState} {e : BIPEntry} (h : ScanInv st)
    (hseen : st.seen.contains e.url = false) (hne : e.url ≠ "") :
    ScanInv (st.emit e) := by
  obtain ⟨hnd, hcl, hne'⟩ := h
  have hnotseen : e.url ∉ st.seen := by
    intro hmem
    have hc : st.seen.contains e.url = true := List.elem_eq_true_of_mem hmem
    rw [hc] at hseen
    exact Bool.noConfusion hseen
  refine ⟨?_, ?_, ?_⟩
  · have hnotmap : ∀ x ∈ st.entries, ¬ x.url = e.url := by
      intro x hx hurl
      exact hnotseen (hurl ▸ hcl x hx)
    simpa [ScanState.emit, List.nodup_append] using ⟨hnd, hnotmap⟩
  · intro e' he'
    rcases List.mem_append.mp he' with h' | h'
    · exact List.mem_cons_of_mem _ (hcl e' h')
    · rcases List.mem_singleton.mp h' with rfl
      exact List.mem_cons_self _ _
  · intro e' he'
    rcases List.mem_append.mp he' with h' | h'
    · exact hne' e' h'
    · rcases List.mem_singleton.mp h' with rfl
      exact hne

theorem staticRowStep_inv {ctx : RejCtx} {st : ScanState} {row : Node}
    (h : ScanInv st) : ScanInv (staticRowStep ctx st row).1 := by
  unfold staticRowStep
  dsimp only
  split
  · exact h
  split
  · exact h
  split
  · exact h
  next hguard =>
    have hg := Bool.eq_false_iff.mpr hguard
    rw [Bool.or_eq_false_iff, Bool.or_eq_false_iff] at hg
    split
    · exact h
    · exact scanInv_emit h hg.1.2 (by simpa using hg.1.1)

theorem blockStep_inv {ctx : RejCtx} {st : ScanState} {block : Node}
    (h : ScanInv st) : ScanInv (blockStep ctx st block).1 := by
  unfold blockStep
  dsimp only
  split
  · exact h
  split
  · exact h
  next hguard =>
    have hg := Bool.eq_false_iff.mpr hguard
    rw [Bool.or_eq_false_iff, Bool.or_eq_false_iff] at hg
    split
    · exact h
    · exact scanInv_emit h hg.1.2 (by simpa using hg.1.1)

theorem fallbackStep_inv {ctx : RejCtx} {st : ScanState} {link : Node}
    (h : ScanInv st) : ScanInv (fallbackStep ctx st link).1 := by
  unfold fallbackStep
  dsimp only
  split
  · exact h
  next hguard =>
    have hg := Bool.eq_false_iff.mpr hguard
    rw [Bool.or_eq_false_iff, Bool.or_eq_false_iff] at hg
    split
    · exact h
    · exact scanInv_emit h hg.1.2 (by simpa using hg.1.1)

theorem htmlListStep_inv {base sourceName : String} {maxEntries : Nat}
    {st : ScanState} {el : Node} (h : ScanInv st) :
    ScanInv (htmlListStep base sourceName maxEntries st el).1 := by
  unfold htmlListStep
  dsimp only
  split
  · exact h
  split
  · exact h
  split
  · exact h
  next hguard =>
    have hg := Bool.eq_false_iff.mpr hguard
    rw [Bool.or_eq_false_iff, Bool.or_eq_false_iff] at hg
    repeat' split
    all_goals
      first
      | exact h
      | exact scanInv_emit h hg.1.2 (by simpa using hg.1.1)

theorem scanLoop_inv {P : ScanState → Prop} {step : ScanState → Node → ScanState × Bool}
    (hstep : ∀ st x, P st → P (step st x).1) :
    ∀ (xs : List Node) (st : ScanState), P st → P (scanLoop step xs st).1 := by
  intro xs
  induction xs with
  | nil => intro st h; exact h
  | cons x rest ih =>
    intro st h
    unfold scanLoop
    dsimp only
    split
    · exact hstep st x h
    · exact ih _ (hstep st x h)

theorem staticTables_inv {ctx : RejCtx} :
    ∀ (ts : List Node) (st : ScanState), ScanInv st →
      ScanInv (staticTables ctx ts st).1 := by
  intro ts
  induction ts with
  | nil => intro st h; exact h
  | cons t rest ih =>
    intro st h
    unfold staticTables
    dsimp only
    split
    · exact scanLoop_inv (fun st x => staticRowStep_inv) _ st h
    · exact ih _ (scanLoop_inv (fun st x => staticRowStep_inv) _ st h)

/-- The non-AJAX cascade returns the entry list of a state satisfying the
scan invariant. -/
theorem cascadeTiers_eq_scan (listUrl sourceName : String) (maxEntries : Nat)
    (soup : Node) :
    ∃ st : ScanState,
      cascadeTiers listUrl sourceName maxEntries soup = st.entries ∧ ScanInv st := by
  have h1 := @staticTables_inv ⟨listUrl, pageBase listUrl, sourceName, maxEntries⟩
    (soup.findAllTag "table") ⟨[], []⟩ scanInv_empty
  have h2 : ScanInv (blocksPhase ⟨listUrl, pageBase listUrl, sourceName, maxEntries⟩
      (selectBlocks soup)
      (staticTables ⟨listUrl, pageBase listUrl, sourceName, maxEntries⟩
        (soup.findAllTag "table") ⟨[], []⟩).1).1 :=
    scanLoop_inv (fun st x => blockStep_inv) _ _ h1
  unfold cascadeTiers
  dsimp only
  split
  · exact ⟨_, rfl, h1⟩
  split
  · exact ⟨_, rfl, h1⟩
  split
  · exact ⟨_, rfl, h2⟩
  split
  · exact ⟨_, rfl, h2⟩
  · exact ⟨_, rfl, scanLoop_inv (fun st x => fallbackStep_inv) _ _ h2⟩

/-- Distinct, non-empty urls for every batch the non-AJAX cascade returns. -/
theorem cascadeTiers_scanProps (listUrl sourceName : String) (maxEntries : Nat)
    (soup : Node) :
    ((cascadeTiers listUrl sourceName maxEntries soup).map (fun e => e.url)).Nodup ∧
    ∀ e ∈ cascadeTiers listUrl sourceName maxEntries soup, e.url ≠ "" := by
  obtain ⟨st, heq, hinv⟩ := cascadeTiers_eq_scan listUrl sourceName maxEntries soup
  rw [heq]
  exact ⟨hinv.1, hinv.2.2⟩

/-! ## Claim C1 -/

/-- Claim C1, amended: the dynamic-registry escalation path is entered when
the fetched page contains no table element at all, or when every table
element is structurally empty (no body rows); in particular a table with
zero body rows routes into the escalation path, but — contrary to the
original claim — a page with no table at all enters it as well. -/
theorem escalation_entered_iff_no_table_or_all_empty (soup : Node) :
    dynamicEscalationEntered soup = true ↔
      (soup.findAllTag "table" = [] ∨
        ∀ t ∈ soup.findAllTag "table", tableNonempty t = false) := by
  unfold dynamicEscalationEntered
  simp only [Bool.or_eq_true, List.isEmpty_iff, List.all_eq_true, Bool.not_eq_true']

/-- Counterexample to claim C1 as stated: a page with NO table element does
enter the escalation path — its guard holds, and with a DataTables script
present the AJAX endpoint is fetched and its rows are returned. -/
theorem escalation_on_tableless_page :
    pageNoTable.findAllTag "table" = [] ∧
    dynamicEscalationEntered pageNoTable = true ∧
    fetchRejestrZmianOn worldAjaxOne "http://ex.pl/rejestr-zmian" "Gmina" 25 pageNoTable
      = [ajaxEntryFix "Gmina"] :=
  ⟨rfl, rfl, rfl⟩

/-! ## Claim C2 -/

/-- Shared helper: when the static tier produced entries (or returned
early), the cascade's batch is exactly the static tier's output. -/
theorem cascadeTiers_static_nonempty (listUrl sourceName : String)
    (maxEntries : Nat) (soup : Node)
    (h : (staticTables ⟨listUrl, pageBase listUrl, sourceName, maxEntries⟩
            (soup.findAllTag "table") ⟨[], []⟩).2 = true ∨
         (staticTables ⟨listUrl, pageBase listUrl, sourceName, maxEntries⟩
            (soup.findAllTag "table") ⟨[], []⟩).1.entries ≠ []) :
    cascadeTiers listUrl sourceName maxEntries soup =
      (staticTables ⟨listUrl, pageBase listUrl, sourceName, maxEntries⟩
        (soup.findAllTag "table") ⟨[], []⟩).1.entries := by
  unfold cascadeTiers
  dsimp only
  split
  · rfl
  next hd =>
    have hne := h.resolve_left hd
    have hcond :
        (!(staticTables ⟨listUrl, pageBase listUrl, sourceName, maxEntries⟩
            (soup.findAllTag "table") ⟨[], []⟩).1.entries.isEmpty) = true := by
      simpa [List.isEmpty_iff] using hne
    rw [if_pos hcond]

/-- Claim C2, amended: the Generic Link fallback contributes nothing when
the Static Table tier produced at least one entry (or hit `max_entries`):
the returned batch is then exactly the static tier's output.  However —
contrary to the original claim — a non-empty Recently-Added Block tier that
stayed below `max_entries` does NOT suppress the fallback, which still runs
and can append further entries. -/
theorem fallback_skipped_when_static_nonempty (listUrl sourceName : String)
    (maxEntries : Nat) (soup : Node)
    (h : (staticTables ⟨listUrl, pageBase listUrl, sourceName, maxEntries⟩
            (soup.findAllTag "table") ⟨[], []⟩).2 = true ∨
         (staticTables ⟨listUrl, pageBase listUrl, sourceName, maxEntries⟩
            (soup.findAllTag "table") ⟨[], []⟩).1.entries ≠ []) :
    cascadeTiers listUrl sourceName maxEntries soup =
      (staticTables ⟨listUrl, pageBase listUrl, sourceName, maxEntries⟩
        (soup.findAllTag "table") ⟨[], []⟩).1.entries :=
  cascadeTiers_static_nonempty listUrl sourceName maxEntries soup h

/-- Witness for the amended C2: on a page whose static table yields one
entry, the batch is exactly that static output. -/
theorem fallback_skipped_witness :
    cascadeTiers "http://ex.pl/rejestr-zmian" "S" 25
        (tablePage [⟨"Uchwała nr 1", "http://ex.pl/u/1", "11/02/2026"⟩]) =
      (staticTables ⟨"http://ex.pl/rejestr-zmian", pageBase "http://ex.pl/rejestr-zmian",
          "S", 25⟩
        ((tablePage [⟨"Uchwała nr 1", "http://ex.pl/u/1", "11/02/2026"⟩]).findAllTag
          "table") ⟨[], []⟩).1.entries :=
  fallback_skipped_when_static_nonempty _ _ _ _ (Or.inr (by decide))

/-- Counterexample to claim C2 as stated: the Recently-Added Block tier
yields one entry, yet the returned batch additionally contains a
Generic-Link-fallback entry (`published = null`), because no emptiness
guard separates the block tier from the fallback. -/
theorem fallback_runs_after_block_cex :
    (blocksPhase ⟨"http://ex.pl/rejestr-zmian", pageBase "http://ex.pl/rejestr-zmian",
        "S", 25⟩ (selectBlocks pageBlocksMain) ⟨[], []⟩).1.entries = [blockEntryFix] ∧
    fetchRejestrZmianOn errWorld "http://ex.pl/rejestr-zmian" "S" 25 pageBlocksMain
      = [blockEntryFix, fallbackEntryFix] ∧
    fetchRejestrZmianOn errWorld "http://ex.pl/rejestr-zmian" "S" 25 pageBlocksMain
      ≠ (blocksPhase ⟨"http://ex.pl/rejestr-zmian", pageBase "http://ex.pl/rejestr-zmian",
          "S", 25⟩ (selectBlocks pageBlocksMain) ⟨[], []⟩).1.entries ∧
    fallbackEntryFix.published = none := by
  refine ⟨rfl, rfl, ?_, rfl⟩
  decide

/-! ## Claim C3 -/

/-- Claim C3, amended: every batch returned without the dynamic AJAX tier
(the tier that deduplicates through the shared `seen` set is every tier but
that one) has pairwise distinct entry urls; the AJAX tier consults no dedup
set and can return duplicates. -/
theorem nonajax_batch_urls_nodup (w : World) (listUrl sourceName : String)
    (maxEntries : Nat) (soup : Node)
    (hnoajax : ajaxPhase w listUrl sourceName maxEntries soup = none) :
    fetchRejestrZmianOn w listUrl sourceName maxEntries soup =
      cascadeTiers listUrl sourceName maxEntries soup ∧
    ((fetchRejestrZmianOn w listUrl sourceName maxEntries soup).map
      (fun e => e.url)).Nodup := by
  have heq : fetchRejestrZmianOn w listUrl sourceName maxEntries soup =
      cascadeTiers listUrl sourceName maxEntries soup := by
    unfold fetchRejestrZmianOn
    rw [hnoajax]
  exact ⟨heq, heq ▸ (cascadeTiers_scanProps listUrl sourceName maxEntries soup).1⟩

/-- Witness for the amended C3 on a concrete two-row static table. -/
theorem nonajax_batch_urls_nodup_witness :
    fetchRejestrZmianOn errWorld "http://ex.pl/rejestr-zmian" "S" 25
        (tablePage [⟨"Uchwała nr 2", "http://ex.pl/u/2", "11/02/2026"⟩,
                    ⟨"Uchwała nr 3", "http://ex.pl/u/3", "12/02/2026"⟩]) =
      cascadeTiers "http://ex.pl/rejestr-zmian" "S" 25
        (tablePage [⟨"Uchwała nr 2", "http://ex.pl/u/2", "11/02/2026"⟩,
                    ⟨"Uchwała nr 3", "http://ex.pl/u/3", "12/02/2026"⟩]) ∧
    ((fetchRejestrZmianOn errWorld "http://ex.pl/rejestr-zmian" "S" 25
        (tablePage [⟨"Uchwała nr 2", "http://ex.pl/u/2", "11/02/2026"⟩,
                    ⟨"Uchwała nr 3", "http://ex.pl/u/3", "12/02/2026"⟩])).map
      (fun e => e.url)).Nodup :=
  nonajax_batch_urls_nodup errWorld "http://ex.pl/rejestr-zmian" "S" 25 _ (by rfl)

/-- Counterexample to claim C3 as stated: through the dynamic AJAX
escalation (empty table, DataTables script, endpoint returning the same row
twice) one invocation returns two entries with the same url. -/
theorem ajax_batch_duplicate_urls_cex :
    (fetchRejestrZmianOn worldAjaxDup "http://ex.pl/rejestr-zmian" "S" 25
        pageEmptyTable).map (fun e => e.url)
      = ["http://ex.pl/zmiana/1", "http://ex.pl/zmiana/1"] ∧
    ¬ ((fetchRejestrZmianOn worldAjaxDup "http://ex.pl/rejestr-zmian" "S" 25
        pageEmptyTable).map (fun e => e.url)).Nodup := by
  refine ⟨rfl, ?_⟩
  decide

/-! ## Claim C6 -/

/-- Claim C6, amended: OCR is invoked iff the digital result's length is
below 50 (when it is not, the result is the digital text, independently of
what OCR would return); when OCR is invoked, the raw OCR output replaces
the digital text iff the whitespace-stripped OCR output is strictly longer
than the digital text (not the raw OCR output, as the original claim
said). -/
theorem ocr_invocation_and_replacement (pages : List (Option String))
    (images : List String) (ocr1 ocr2 : Except String (List String)) :
    (50 ≤ (digitalTextOf pages).length →
      extractTextFromPdf (.ok pages) ocr1 = digitalTextOf pages ∧
      extractTextFromPdf (.ok pages) ocr1 = extractTextFromPdf (.ok pages) ocr2) ∧
    ((digitalTextOf pages).length < 50 →
      ((digitalTextOf pages).length < (pyStrip (ocrTextOf images)).length →
        extractTextFromPdf (.ok pages) (.ok images) = ocrTextOf images) ∧
      ((pyStrip (ocrTextOf images)).length ≤ (digitalTextOf pages).length →
        extractTextFromPdf (.ok pages) (.ok images) = digitalTextOf pages)) := by
  constructor
  · intro hge
    have hnot : ¬ (digitalTextOf pages).length < 50 := Nat.not_lt.mpr hge
    constructor <;> simp [extractTextFromPdf, hnot]
  · intro hlt
    constructor
    · intro hrepl
      simp [extractTextFromPdf, hlt, hrepl]
    · intro hkeep
      have : ¬ (digitalTextOf pages).length < (pyStrip (ocrTextOf images)).length :=
        Nat.not_lt.mpr hkeep
      simp [extractTextFromPdf, hlt, this]

/-- Witness for the amended C6 at the claim's own figures: a 200-character
digital text suppresses OCR; a 40-character digital text with a
120-character OCR text ends as the OCR text. -/
theorem ocr_invocation_witness :
    extractTextFromPdf (.ok [some digital200]) (.error "boom") = digitalTextOf [some digital200] ∧
    extractTextFromPdf (.ok [some digital40]) (.ok ocr120) = ocrTextOf ocr120 :=
  ⟨((ocr_invocation_and_replacement [some digital200] [] (.error "boom")
      (.error "boom")).1 (by decide)).1,
   ((ocr_invocation_and_replacement [some digital40] ocr120 (.ok ocr120)
      (.ok ocr120)).2 (by decide)).1 (by decide)⟩

/-- Counterexample to claim C6 as stated: digital text of length 40, OCR
output of length 41 (longer than the digital result) — yet the final text
is the digital text, because the code compares the stripped OCR length
(here 0). -/
theorem ocr_replacement_cex :
    digitalTextOf [some digital40] = digital40 ∧
    digital40.length = 40 ∧
    (ocrTextOf ocrBlank40).length = 41 ∧
    extractTextFromPdf (.ok [some digital40]) (.ok ocrBlank40) = digital40 ∧
    extractTextFromPdf (.ok [some digital40]) (.ok ocrBlank40) ≠ ocrTextOf ocrBlank40 := by
  refine ⟨rfl, rfl, rfl, rfl, ?_⟩
  decide

/-! ## Claim C7 -/

/-- Every attachment produced by the candidate loop stores the capped text
of some downloaded document. -/
theorem processCandidates_mem (w : World) (baseUrl : String) :
    ∀ (links : List Node) (uniq : List String) (acc : List Attachment),
      ∀ att ∈ processCandidates w baseUrl links uniq acc,
        att ∈ acc ∨ ∃ content : List Nat,
          att.textContent = trimAttachment (extractPdfBytes w content) := by
  intro links
  induction links with
  | nil =>
    intro uniq acc att h
    exact Or.inl h
  | cons l rest ih =>
    intro uniq acc att h
    simp only [processCandidates] at h
    split at h
    · exact ih _ _ _ h
    split at h
    · exact ih _ _ _ h
    split at h
    · exact ih _ _ _ h
    · split at h
      · rcases ih _ _ _ h with hmem | hex
        · rcases List.mem_append.mp hmem with hmem | hmem
          · exact Or.inl hmem
          · rcases List.mem_singleton.mp hmem with rfl
            exact Or.inr ⟨_, rfl⟩
        · exact Or.inr hex
      · exact ih _ _ _ h

/-- The cap behaviour of `trimAttachment`. -/
theorem trimAttachment_spec (raw : String) :
    (raw.length ≤ 5000 → trimAttachment raw = raw) ∧
    (5000 < raw.length → trimAttachment raw = pyTake raw 5000 ++ "...") := by
  constructor
  · intro hle
    unfold trimAttachment
    rw [if_neg (Nat.not_lt.mpr hle)]
    show pyTake raw 5000 ++ "" = raw
    unfold pyTake
    have htake : raw.data.take 5000 = raw.data := List.take_of_length_le hle
    rw [htake]
    show String.mk (raw.data ++ []) = raw
    rw [List.append_nil]
  · intro hgt
    unfold trimAttachment
    rw [if_pos hgt]

/-- Claim C7: every text stored into an attachment by `fetch_entry_details`
is the extracted document text, stored unchanged when its length is at most
5000 and as its first 5000 characters plus the `...` marker otherwise. -/
theorem attachment_text_truncated (w : World) (e : BIPEntry) (att : Attachment)
    (h : att ∈ (fetchEntryDetails w e).attachments) :
    att ∈ e.attachments ∨
    ∃ content : List Nat,
      att.textContent = trimAttachment (extractPdfBytes w content) ∧
      ((extractPdfBytes w content).length ≤ 5000 →
        att.textContent = extractPdfBytes w content) ∧
      (5000 < (extractPdfBytes w content).length →
        att.textContent = pyTake (extractPdfBytes w content) 5000 ++ "...") := by
  unfold fetchEntryDetails at h
  split at h
  · exact Or.inl h
  · split at h
    · exact Or.inl h
    · dsimp only at h
      rcases List.mem_append.mp h with hmem | hmem
      · exact Or.inl hmem
      · rcases processCandidates_mem w e.url _ _ _ att hmem with hc | ⟨content, hct⟩
        · cases hc
        · refine Or.inr ⟨content, hct, ?_, ?_⟩
          · intro hle
            rw [hct, (trimAttachment_spec _).1 hle]
          · intro hgt
            rw [hct, (trimAttachment_spec _).2 hgt]

/-- Witness for C7: a 400-character extracted text is stored unchanged. -/
theorem attachment_text_witness :
    att400 ∈ (fetchEntryDetails world400 entryOg1).attachments ∧
    (att400 ∈ entryOg1.attachments ∨
      ∃ content : List Nat,
        att400.textContent = trimAttachment (extractPdfBytes world400 content) ∧
        ((extractPdfBytes world400 content).length ≤ 5000 →
          att400.textContent = extractPdfBytes world400 content) ∧
        (5000 < (extractPdfBytes world400 content).length →
          att400.textContent = pyTake (extractPdfBytes world400 content) 5000 ++ "...")) := by
  have hmem : att400 ∈ (fetchEntryDetails world400 entryOg1).attachments := by
    have heq : (fetchEntryDetails world400 entryOg1).attachments = [att400] := rfl
    rw [heq]
    exact List.mem_singleton_self _
  exact ⟨hmem, attachment_text_truncated world400 entryOg1 att400 hmem⟩

/-! ## Claim C8 -/

/-- Claim C8: an anchor qualifies as an attachment candidate iff its
resolved href ends in `.pdf`, or its text contains one of the locale
keywords and its href contains `pdf`; and the concrete keyword scenario
(`pobierz załącznik`, href `/files/doc.pdf?x=1`, download 200 +
`application/pdf`) yields exactly one attachment at the resolved URL. -/
theorem attachment_candidate_rule (baseUrl : String) (link : Node) :
    (attachmentCandidate baseUrl link = true ↔
      pyEndsWith (pyLower (urljoinModel baseUrl (pyStrip ((link.attr "href").getD ""))))
        ".pdf" = true ∨
      ((∃ kw ∈ attachKeywords,
          strContains (pyLower link.getTextSpaceStrip) kw = true) ∧
        strContains (pyLower (pyStrip ((link.attr "href").getD ""))) "pdf" = true)) ∧
    fetchEntryDetails worldKw entryOg1 = { entryOg1 with attachments := [attKw] } ∧
    attKw.url = urljoinModel entryOg1.url "/files/doc.pdf?x=1" := by
  refine ⟨?_, rfl, rfl⟩
  unfold attachmentCandidate
  dsimp only
  simp [List.any_eq_true, Bool.or_eq_true, Bool.and_eq_true]

/-! ## Claim C9 -/

/-- Claim C9: `extract_text_from_pdf` propagates no exception.  When the
digital tier raises, OCR is still attempted and its (non-blank) output is
returned; when both tiers raise, a descriptive placeholder string is
returned instead of failing. -/
theorem pdf_extraction_error_policy (e1 e2 : String) (images : List String) :
    extractTextFromPdf (.error e1) (.ok images) =
      (if 0 < (pyStrip (ocrTextOf images)).length then ocrTextOf images else "") ∧
    extractTextFromPdf (.error e1) (.error e2) =
      "[Błąd odczytu PDF i OCR: " ++ e2 ++ "]" := by
  constructor <;> simp [extractTextFromPdf]

/-! ## Claim C4 -/

theorem str_eq_empty_of_data_nil {a : String} (h : a.data = []) : a = "" := by
  cases a with
  | mk d => cases h; rfl

theorem strAppend_mid_ne_empty (a c : String) : a ++ "://" ++ c ≠ "" := by
  intro h
  have hd := congrArg String.data h
  simp only [String.data_append] at hd
  rcases List.append_eq_nil.mp hd with ⟨h1, _⟩
  rcases List.append_eq_nil.mp h1 with ⟨_, h2⟩
  exact absurd h2 (by decide)

theorem strAppend_left_ne_empty {a : String} (b : String) (ha : a ≠ "") :
    a ++ b ≠ "" := by
  intro h
  have hd := congrArg String.data h
  simp only [String.data_append] at hd
  rcases List.append_eq_nil.mp hd with ⟨h1, _⟩
  exact ha (str_eq_empty_of_data_nil h1)

theorem schemeNetloc_ne_empty (u : String) : schemeNetloc u ≠ "" := by
  unfold schemeNetloc
  split
  · exact strAppend_mid_ne_empty _ _
  · decide

theorem replaceBackslash_ne_empty {s : String} (h : s ≠ "") :
    replaceBackslash s ≠ "" := by
  intro hc
  have hd := congrArg String.data hc
  rw [show (replaceBackslash s).data =
      s.data.map (fun c => if c = '\\' then '/' else c) from rfl] at hd
  have hnil : s.data = [] := List.map_eq_nil_iff.mp hd
  exact h (str_eq_empty_of_data_nil hnil)

/-- Every entry the AJAX tier emits has a non-empty url (given a non-empty
listing URL, which `fetch_source` guarantees). -/
theorem ajaxRowEntry_url_ne {listUrl sourceName : String} {row : AjaxRow}
    {e : BIPEntry} (hlist : listUrl ≠ "")
    (h : ajaxRowEntry listUrl sourceName row = some e) : e.url ≠ "" := by
  cases hrt : row.rawTitle with
  | none =>
    unfold ajaxRowEntry at h
    rw [hrt] at h
    exact absurd h (by simp)
  | some p =>
    obtain ⟨rawStr, parsed⟩ := p
    unfold ajaxRowEntry at h
    rw [hrt] at h
    dsimp only at h
    rw [Option.some_inj] at h
    subst h
    dsimp only
    cases hf : parsed.findTag "a" with
    | none =>
      dsimp only
      exact hlist
    | some link =>
      dsimp only
      split
      next hguard =>
        dsimp only
        split
        · exact strAppend_left_ne_empty _ (schemeNetloc_ne_empty listUrl)
        · have hhref : ((link.attr "href").getD "") ≠ "" := by
            have hand := (Bool.and_eq_true _ _).mp hguard
            simpa using hand.2
          exact replaceBackslash_ne_empty hhref
      · exact hlist

theorem ajaxEntriesLoop_url_ne {listUrl : String} (sourceName : String)
    (hlist : listUrl ≠ "") (maxEntries : Nat) :
    ∀ (rows : List AjaxRow) (acc : List BIPEntry),
      (∀ e ∈ acc, e.url ≠ "") →
      ∀ e ∈ ajaxEntriesLoop listUrl sourceName maxEntries rows acc, e.url ≠ "" := by
  intro rows
  induction rows with
  | nil =>
    intro acc hacc e he
    exact hacc e he
  | cons row rest ih =>
    intro acc hacc e he
    unfold ajaxEntriesLoop at he
    split at he
    · exact hacc e he
    · split at he
      · exact ih _ hacc e he
      next e0 heq =>
        refine ih _ ?_ e he
        intro e' he'
        rcases List.mem_append.mp he' with h' | h'
        · exact hacc e' h'
        · rcases List.mem_singleton.mp h' with rfl
          exact ajaxRowEntry_url_ne hlist heq

theorem ajaxPhase_mem_url_ne (w : World) {listUrl : String} (sourceName : String)
    (maxEntries : Nat) (soup : Node) (hlist : listUrl ≠ "") {es : List BIPEntry}
    (h : ajaxPhase w listUrl sourceName maxEntries soup = some es) :
    ∀ e ∈ es, e.url ≠ "" := by
  unfold ajaxPhase at h
  split at h
  · split at h
    next u hu =>
      dsimp only at h
      cases hx : w.ajax (if pyStartsWith u "/" then schemeNetloc listUrl ++ u else u) with
      | error err =>
        rw [hx] at h
        exact absurd h (by simp)
      | ok rows =>
        rw [hx] at h
        dsimp only at h
        split at h
        · exact absurd h (by simp)
        · rw [Option.some_inj] at h
          subst h
          exact ajaxEntriesLoop_url_ne sourceName hlist maxEntries _ _
            (fun e hmem => absurd hmem (List.not_mem_nil e))
    · exact absurd h (by simp)
  · exact absurd h (by simp)

theorem fetchRejestrZmianOn_url_ne (w : World) {listUrl : String}
    (sourceName : String) (maxEntries : Nat) (soup : Node) (hlist : listUrl ≠ "") :
    ∀ e ∈ fetchRejestrZmianOn w listUrl sourceName maxEntries soup, e.url ≠ "" := by
  intro e he
  unfold fetchRejestrZmianOn at he
  split at he
  next es hajax =>
    exact ajaxPhase_mem_url_ne w sourceName maxEntries soup hlist hajax e he
  next hajax =>
    exact (cascadeTiers_scanProps listUrl sourceName maxEntries soup).2 e he

theorem htmlListSels_inv (soup : Node) (base sourceName : String) (maxEntries : Nat) :
    ∀ (sels : List (Node → List Node)) (st : ScanState), ScanInv st →
      ScanInv (htmlListSels soup base sourceName maxEntries sels st).1 := by
  intro sels
  induction sels with
  | nil =>
    intro st h
    exact h
  | cons sel rest ih =>
    intro st h
    unfold htmlListSels
    dsimp only
    split
    · exact scanLoop_inv (fun st x => htmlListStep_inv) _ st h
    · exact ih _ (scanLoop_inv (fun st x => htmlListStep_inv) _ st h)

theorem fetchHtmlListOn_url_ne (listUrl sourceName : String) (maxEntries : Nat)
    (soup : Node) :
    ∀ e ∈ fetchHtmlListOn listUrl sourceName maxEntries soup, e.url ≠ "" := by
  intro e he
  exact (htmlListSels_inv soup (pageBase listUrl) sourceName maxEntries
    htmlSelectors ⟨[], []⟩ scanInv_empty).2.2 e he

theorem rssItemEntry_title_ne (baseUrl sourceName : String) (item : FeedItem) :
    (rssItemEntry baseUrl sourceName item).title ≠ "" := by
  unfold rssItemEntry
  dsimp only
  split
  next h => simpa using h
  · decide

/-- Enrichment never changes an entry's `title` or `url`. -/
theorem fetchEntryDetails_title_url (w : World) (e : BIPEntry) :
    (fetchEntryDetails w e).title = e.title ∧ (fetchEntryDetails w e).url = e.url := by
  unfold fetchEntryDetails
  split
  · exact ⟨rfl, rfl⟩
  · split
    · exact ⟨rfl, rfl⟩
    · exact ⟨rfl, rfl⟩

/-- Claim C4, amended: every entry the orchestrator accumulates has a
non-empty title or a non-empty url — the feed path always supplies a title
(falling back to a placeholder), the HTML scraping tiers always supply a
url, and the AJAX tier always supplies a url; but — contrary to the
original claim — a feed item without a link is emitted with `url = ""`,
and an AJAX title anchor with blank text is emitted with `title = ""`. -/
theorem run_scraper_title_or_url (w : World) (cfg : Config) (e : BIPEntry)
    (hmem : e ∈ runScraper w cfg) : e.title ≠ "" ∨ e.url ≠ "" := by
  have hsrc : ∀ src : Source, ∀ es, fetchSource w src = .ok es →
      ∀ e ∈ es, e.title ≠ "" ∨ e.url ≠ "" := by
    intro src es hok e he
    unfold fetchSource at hok
    split at hok
    · unfold fetchRss at hok
      cases hfeed : w.feed src.rssUrl with
      | error err =>
        rw [hfeed] at hok
        exact absurd hok (by simp [Except.map])
      | ok f =>
        rw [hfeed] at hok
        simp only [Except.map] at hok
        rw [Except.ok.injEq] at hok
        subst hok
        left
        unfold fetchRssOn at he
        obtain ⟨item, _, rfl⟩ := List.mem_map.mp he
        exact rssItemEntry_title_ne _ _ item
    · next hlist0 =>
      split at hok
      next hlist =>
        split at hok
        · unfold fetchRejestrZmian at hok
          cases hpage : w.page src.listUrl with
          | error err =>
            rw [hpage] at hok
            exact absurd hok (by simp [Except.map])
          | ok soup =>
            rw [hpage] at hok
            simp only [Except.map] at hok
            rw [Except.ok.injEq] at hok
            subst hok
            right
            exact fetchRejestrZmianOn_url_ne w _ _ _ (by simpa using hlist) e he
        · unfold fetchHtmlList at hok
          cases hpage : w.page src.listUrl with
          | error err =>
            rw [hpage] at hok
            exact absurd hok (by simp [Except.map])
          | ok soup =>
            rw [hpage] at hok
            simp only [Except.map] at hok
            rw [Except.ok.injEq] at hok
            subst hok
            right
            exact fetchHtmlListOn_url_ne _ _ _ soup e he
      · rw [Except.ok.injEq] at hok
        subst hok
        cases he
  have hgo : ∀ (srcs : List Source) (acc : List BIPEntry),
      (∀ e ∈ acc, e.title ≠ "" ∨ e.url ≠ "") →
      ∀ e ∈ runScraper.go w srcs acc, e.title ≠ "" ∨ e.url ≠ "" := by
    intro srcs
    induction srcs with
    | nil =>
      intro acc hacc e he
      exact hacc e he
    | cons src rest ih =>
      intro acc hacc e he
      unfold runScraper.go at he
      split at he
      · exact ih _ hacc e he
      next es hok =>
        refine ih _ ?_ e he
        intro e' he'
        rcases List.mem_append.mp he' with h' | h'
        · exact hacc e' h'
        · obtain ⟨e0, he0, rfl⟩ := List.mem_map.mp h'
          have hp := fetchEntryDetails_title_url w e0
          rcases hsrc src es hok e0 he0 with ht | hu
          · exact Or.inl (by rw [hp.1]; exact ht)
          · exact Or.inr (by rw [hp.2]; exact hu)
  exact hgo cfg.sources [] (fun e h => absurd h (List.not_mem_nil e)) e hmem

/-- The single entry of the `feedNoLink` scenario. -/
def feedEntryNoLink : BIPEntry :=
  { title := "Ogłoszenie w biuletynie", url := "", summary := "", content := "",
    published := none, sourceName := "BIP", attachments := [] }

/-- Witness for the amended C4 on the concrete feed scenario. -/
theorem run_scraper_title_or_url_witness :
    feedEntryNoLink ∈ runScraper worldFeedNoLink cfgFeedOnly ∧
    (feedEntryNoLink.title ≠ "" ∨ feedEntryNoLink.url ≠ "") := by
  have hmem : feedEntryNoLink ∈ runScraper worldFeedNoLink cfgFeedOnly := by
    have heq : runScraper worldFeedNoLink cfgFeedOnly = [feedEntryNoLink] := rfl
    rw [heq]
    exact List.mem_singleton_self _
  exact ⟨hmem, run_scraper_title_or_url worldFeedNoLink cfgFeedOnly feedEntryNoLink hmem⟩

/-- Counterexample to claim C4 as stated: a feed item without a link is
accumulated by the orchestrator with an empty url. -/
theorem run_scraper_empty_url_cex :
    runScraper worldFeedNoLink cfgFeedOnly = [feedEntryNoLink] ∧
    feedEntryNoLink.url = "" :=
  ⟨rfl, rfl⟩

/-! ## Claim C5 -/

/-- Well-formedness of a static-table row as the claim presupposes: an
absolute non-tricky href, a title of stripped length at least 5, and a
date cell that the date heuristic accepts. -/
abbrev GoodRow (r : RowSpec) : Prop :=
  pyStartsWith r.href "http" = true ∧
  strContains (pyLower r.href) "javascript:" = false ∧
  strContains (pyLower r.href) "mailto:" = false ∧
  strContains (pyLower r.href) "#" = false ∧
  pyStrip r.href = r.href ∧
  5 ≤ (pyStrip r.title).length ∧
  pyStrip r.date = r.date ∧ r.date ≠ "" ∧ r.date.length ≤ 60 ∧
  searchNumericDate r.date = true

theorem strAppend_empty (s : String) : s ++ "" = s := by
  cases s with
  | mk data =>
    show String.mk (data ++ []) = String.mk data
    rw [List.append_nil]

theorem pyStartsWith_http_ne_empty {s : String}
    (h : pyStartsWith s "http" = true) : ¬ s = "" := by
  intro heq
  rw [heq] at h
  exact absurd h (by decide)

theorem pyStartsWith_http_not_hash {s : String}
    (h : pyStartsWith s "http" = true) : pyStartsWith s "#" = false := by
  unfold pyStartsWith at h ⊢
  cases hs : s.data with
  | nil => rw [hs] at h; exact absurd h (by decide)
  | cons c cs =>
    rw [hs] at h
    simp only [show ("http".data : List Char) = ['h', 't', 't', 'p'] from rfl,
      List.isPrefixOf, Bool.and_eq_true, beq_iff_eq] at h
    simp only [show ("#".data : List Char) = ['#'] from rfl, List.isPrefixOf,
      Bool.and_eq_true, beq_iff_eq, Bool.and_eq_false_imp]
    intro hcontra
    rw [← hcontra] at h
    exact absurd h.1 (by decide)

theorem normalizeListUrl_http {base href : String}
    (h : pyStartsWith href "http" = true) : normalizeListUrl base href = href := by
  unfold normalizeListUrl
  simp [pyStartsWith_http_ne_empty h, pyStartsWith_http_not_hash h, h]

theorem nodeBeq_aHref_self (h t : String) : nodeBeq (aHref h t) (aHref h t) = true := by
  simp [aHref, nodeBeq, nodeBeq.nodesBeq]

theorem cells_of_mkRow (r : RowSpec) :
    (mkRow r).findAllP (fun n => n.tagName == "td" || n.tagName == "th") =
      [.elem "td" [] [aHref r.href r.title], .elem "td" [] [.text r.date]] := rfl

theorem anchor_of_mkRow (r : RowSpec) :
    (mkRow r).findP isAnchorHref = some (aHref r.href r.title) := rfl

theorem getText_aHref (h t : String) : (aHref h t).getText = t := by
  show t ++ "" = t
  exact strAppend_empty t

theorem extractDate_tdDate (r : RowSpec)
    (hstrip : pyStrip r.date = r.date) (hne : r.date ≠ "")
    (hlen : r.date.length ≤ 60) (hnum : searchNumericDate r.date = true) :
    extractDateFromCell (.elem "td" [] [.text r.date]) = some r.date := by
  unfold extractDateFromCell
  have htext : pyStrip (Node.elem "td" [] [Node.text r.date]).getText = r.date := by
    show pyStrip (r.date ++ "") = r.date
    rw [strAppend_empty]
    exact hstrip
  rw [show (Node.elem "td" [] [Node.text r.date]).pyTruthy = true from rfl]
  dsimp only
  rw [htext]
  simp [hne, Nat.not_lt.mpr hlen, hnum]

theorem rowPublished_good (r : RowSpec)
    (hstrip : pyStrip r.date = r.date) (hne : r.date ≠ "")
    (hlen : r.date.length ≤ 60) (hnum : searchNumericDate r.date = true) :
    rowPublished (aHref r.href r.title)
      [.elem "td" [] [aHref r.href r.title], .elem "td" [] [.text r.date]] =
      some r.date := by
  unfold rowPublished
  rw [show (Node.elem "td" [] [aHref r.href r.title]).findAllTag "a" =
      [aHref r.href r.title] from rfl]
  simp only [List.any_cons, List.any_nil, nodeBeq_aHref_self, Bool.or_false, if_true]
  unfold rowPublished
  rw [show (Node.elem "td" [] [Node.text r.date]).findAllTag "a" = [] from rfl]
  simp only [List.any_nil, Bool.false_eq_true, if_false]
  rw [extractDate_tdDate r hstrip hne hlen hnum]

/-- The static-table tier turns a well-formed row into exactly the expected
entry. -/
theorem staticRowStep_good (ctx : RejCtx) (st : ScanState) (r : RowSpec)
    (hr : GoodRow r) (hseen : st.seen.contains r.href = false) :
    staticRowStep ctx st (mkRow r) =
      (st.emit (rowEntry ctx.sourceName r),
       decide (ctx.maxEntries ≤ (st.emit (rowEntry ctx.sourceName r)).entries.length)) := by
  obtain ⟨hhttp, hjs, hmail, hhash, hstrip, htitle, hdstrip, hdne, hdlen, hdnum⟩ := hr
  unfold staticRowStep
  rw [cells_of_mkRow, anchor_of_mkRow]
  dsimp only
  rw [show ((aHref r.href r.title).attr "href").getD "" = r.href from rfl]
  rw [hstrip, normalizeListUrl_http hhttp, getText_aHref]
  have hguard : (decide (r.href = "") || st.seen.contains r.href ||
      (badUrlParts.any fun x => strContains (pyLower r.href) x)) = false := by
    rw [decide_eq_false (pyStartsWith_http_ne_empty hhttp), hseen]
    show (false || false || _) = false
    simp [badUrlParts, hjs, hmail, hhash]
  have hg2 : ¬ ((decide (r.href = "") || st.seen.contains r.href ||
      (badUrlParts.any fun x => strContains (pyLower r.href) x)) = true) := by
    rw [hguard]
    exact Bool.false_ne_true
  rw [if_neg hg2]
  rw [if_neg (Nat.not_lt.mpr htitle)]
  rw [rowPublished_good r hdstrip hdne hdlen hdnum]
  rfl

/-- The static-row loop on well-formed rows with fresh, pairwise distinct
hrefs: it emits one entry per row until `max_entries` is reached. -/
theorem staticRows_good (ctx : RejCtx) :
    ∀ (rs : List RowSpec) (st : ScanState),
      (∀ r ∈ rs, GoodRow r) →
      (∀ r ∈ rs, st.seen.contains r.href = false) →
      (rs.map (fun r => r.href)).Nodup →
      st.entries.length < ctx.maxEntries →
      (scanLoop (staticRowStep ctx) (rs.map mkRow) st).1.entries =
        st.entries ++
          (rs.take (ctx.maxEntries - st.entries.length)).map (rowEntry ctx.sourceName) := by
  intro rs
  induction rs with
  | nil =>
    intro st _ _ _ _
    simp [scanLoop]
  | cons r rest ih =>
    intro st hgood hfresh hnd hlt
    have hstep := staticRowStep_good ctx st r (hgood r (List.mem_cons_self r rest))
      (hfresh r (List.mem_cons_self r rest))
    have hlen : (st.emit (rowEntry ctx.sourceName r)).entries.length =
        st.entries.length + 1 := by
      simp [ScanState.emit]
    rw [List.map_cons]
    unfold scanLoop
    dsimp only
    rw [hstep]
    dsimp only
    by_cases hdone : ctx.maxEntries ≤ (st.emit (rowEntry ctx.sourceName r)).entries.length
    · rw [if_pos (by simpa using hdone)]
      dsimp only
      have hmx : ctx.maxEntries - st.entries.length = 1 := by
        rw [hlen] at hdone
        omega
      rw [hmx, ScanState.emit]
      simp
    · rw [if_neg (by simpa using hdone)]
      have hfresh' : ∀ r' ∈ rest, (st.emit (rowEntry ctx.sourceName r)).seen.contains r'.href = false := by
        intro r' hr'
        show ((rowEntry ctx.sourceName r).url :: st.seen).contains r'.href = false
        have hne : (r'.href == r.href) = false := by
          rw [beq_eq_false_iff_ne]
          intro heq
          have : r.href ∈ rest.map (fun r => r.href) :=
            heq ▸ List.mem_map_of_mem (fun r => r.href) hr'
          exact (List.nodup_cons.mp hnd).1 this
        show (r'.href == r.href || st.seen.contains r'.href) = false
        rw [hne, hfresh r' (List.mem_cons_of_mem r hr')]
        rfl
      have hlt' : (st.emit (rowEntry ctx.sourceName r)).entries.length < ctx.maxEntries := by
        rw [hlen] at hdone ⊢
        omega
      rw [ih (st.emit (rowEntry ctx.sourceName r))
        (fun r' hr' => hgood r' (List.mem_cons_of_mem r hr')) hfresh'
        (List.nodup_cons.mp hnd).2 hlt']
      rw [hlen, ScanState.emit]
      dsimp only
      rw [List.append_assoc]
      congr 1
      have htake : ctx.maxEntries - st.entries.length =
          (ctx.maxEntries - (st.entries.length + 1)) + 1 := by omega
      rw [htake, List.take_succ_cons, List.map_cons]
      rfl

theorem descList_filter_tr :
    ∀ rs : List RowSpec,
      (descendantsList (rs.map mkRow)).filter (Node.isTagB "tr") = rs.map mkRow := by
  intro rs
  induction rs with
  | nil => rfl
  | cons r rest ih =>
    rw [List.map_cons]
    show ((mkRow r :: ((mkRow r).descendants ++ descendantsList (rest.map mkRow))).filter
      (Node.isTagB "tr")) = mkRow r :: rest.map mkRow
    rw [List.filter_cons_of_pos (by rfl), List.filter_append,
      show (mkRow r).descendants.filter (Node.isTagB "tr") = [] from rfl, ih,
      List.nil_append]

theorem descList_filter_table :
    ∀ rs : List RowSpec,
      (descendantsList (rs.map mkRow)).filter (Node.isTagB "table") = [] := by
  intro rs
  induction rs with
  | nil => rfl
  | cons r rest ih =>
    rw [List.map_cons]
    show ((mkRow r :: ((mkRow r).descendants ++ descendantsList (rest.map mkRow))).filter
      (Node.isTagB "table")) = []
    rw [List.filter_cons_of_neg (by simp [mkRow, Node.isTagB, Node.tagName]),
      List.filter_append,
      show (mkRow r).descendants.filter (Node.isTagB "table") = [] from rfl, ih]
    rfl

theorem findAllTag_tr_tableNode (rs : List RowSpec) :
    (Node.elem "table" [] [Node.elem "tbody" [] (rs.map mkRow)]).findAllTag "tr" =
      rs.map mkRow := by
  show (Node.elem "tbody" [] (rs.map mkRow) ::
    (descendantsList (rs.map mkRow) ++ [])).filter (Node.isTagB "tr") = rs.map mkRow
  rw [List.append_nil,
    List.filter_cons_of_neg (by simp [Node.isTagB, Node.tagName]),
    descList_filter_tr]

theorem findAllTag_table_tablePage (rs : List RowSpec) :
    (tablePage rs).findAllTag "table" =
      [Node.elem "table" [] [Node.elem "tbody" [] (rs.map mkRow)]] := by
  show (Node.elem "table" [] [Node.elem "tbody" [] (rs.map mkRow)] ::
      ((Node.elem "tbody" [] (rs.map mkRow) ::
        (descendantsList (rs.map mkRow) ++ [])) ++ [])).filter (Node.isTagB "table") =
    [Node.elem "table" [] [Node.elem "tbody" [] (rs.map mkRow)]]
  rw [List.filter_cons_of_pos (by rfl), List.append_nil, List.append_nil,
    List.filter_cons_of_neg (by simp [Node.isTagB, Node.tagName]),
    descList_filter_table]

theorem tableNonempty_tableNode (r : RowSpec) (rest : List RowSpec) :
    tableNonempty
      (Node.elem "table" [] [Node.elem "tbody" [] ((r :: rest).map mkRow)]) = true := by
  unfold tableNonempty
  have h1 : (Node.elem "table" [] [Node.elem "tbody" [] ((r :: rest).map mkRow)]).findTag
      "tbody" = some (Node.elem "tbody" [] ((r :: rest).map mkRow)) := by
    show ((Node.elem "tbody" [] ((r :: rest).map mkRow) ::
      (descendantsList ((r :: rest).map mkRow) ++ [])).filter
        (Node.isTagB "tbody")).head? = _
    rw [List.filter_cons_of_pos (by rfl)]
    rfl
  rw [h1]
  have h2 : (Node.elem "tbody" [] ((r :: rest).map mkRow)).findTag "tr" =
      some (mkRow r) := by
    show ((descendantsList ((r :: rest).map mkRow)).filter (Node.isTagB "tr")).head? = _
    rw [descList_filter_tr, List.map_cons]
    rfl
  have h3 : (Node.elem "tbody" [] ((r :: rest).map mkRow)).pyTruthy = true := by
    rw [List.map_cons]
    rfl
  dsimp only
  rw [h2, h3]
  rfl

theorem ajaxPhase_tablePage_none (w : World) (listUrl sourceName : String)
    (maxEntries : Nat) (r : RowSpec) (rest : List RowSpec) :
    ajaxPhase w listUrl sourceName maxEntries (tablePage (r :: rest)) = none := by
  unfold ajaxPhase
  have hent : dynamicEscalationEntered (tablePage (r :: rest)) = false := by
    unfold dynamicEscalationEntered
    rw [findAllTag_table_tablePage]
    simp only [List.isEmpty_cons, List.all_cons, List.all_nil, Bool.false_or,
      Bool.and_true]
    rw [tableNonempty_tableNode]
    rfl
  rw [if_neg (by rw [hent]; exact Bool.false_ne_true)]

theorem staticTables_singleton (ctx : RejCtx) (t : Node) (st : ScanState) :
    (staticTables ctx [t] st).1 = (staticRows ctx (t.findAllTag "tr") st).1 := by
  unfold staticTables
  dsimp only
  split
  · rfl
  · unfold staticTables
    rfl

/-- Claim C5: on a page whose static table has `N` well-formed rows (anchor
of stripped title length at least 5, absolute distinct hrefs, a separate
date cell accepted by the date heuristic), the extraction returns exactly
`min N max_entries` entries, in row order, with pairwise-distinct urls, each
with `published` equal to its row's date-cell text. -/
theorem static_table_extraction (w : World) (listUrl sourceName : String)
    (maxEntries : Nat) (rows : List RowSpec)
    (hmax : 1 ≤ maxEntries) (hne : rows ≠ [])
    (hgood : ∀ r ∈ rows, GoodRow r)
    (hnd : (rows.map (fun r => r.href)).Nodup) :
    fetchRejestrZmianOn w listUrl sourceName maxEntries (tablePage rows) =
      (rows.take maxEntries).map (rowEntry sourceName) ∧
    (fetchRejestrZmianOn w listUrl sourceName maxEntries (tablePage rows)).length =
      min rows.length maxEntries ∧
    ((fetchRejestrZmianOn w listUrl sourceName maxEntries (tablePage rows)).map
      (fun e => e.url)).Nodup ∧
    ∀ e ∈ fetchRejestrZmianOn w listUrl sourceName maxEntries (tablePage rows),
      ∃ r ∈ rows, e.title = pyStrip r.title ∧ e.url = r.href ∧
        e.published = some r.date := by
  obtain ⟨r0, rest, rfl⟩ : ∃ r0 rest, rows = r0 :: rest := by
    cases rows with
    | nil => exact absurd rfl hne
    | cons a l => exact ⟨a, l, rfl⟩
  set rows := r0 :: rest with hrows
  have heq : fetchRejestrZmianOn w listUrl sourceName maxEntries (tablePage rows) =
      (rows.take maxEntries).map (rowEntry sourceName) := by
    unfold fetchRejestrZmianOn
    rw [ajaxPhase_tablePage_none]
    have hloop := staticRows_good ⟨listUrl, pageBase listUrl, sourceName, maxEntries⟩
      rows ⟨[], []⟩ hgood (fun r _ => rfl) hnd (by exact hmax)
    simp only [Nat.sub_zero, List.nil_append] at hloop
    have hstatic : (staticTables ⟨listUrl, pageBase listUrl, sourceName, maxEntries⟩
        ((tablePage rows).findAllTag "table") ⟨[], []⟩).1.entries =
        (rows.take maxEntries).map (rowEntry sourceName) := by
      rw [findAllTag_table_tablePage, staticTables_singleton, staticRows]
      rw [findAllTag_tr_tableNode]
      exact hloop
    rw [cascadeTiers_static_nonempty listUrl sourceName maxEntries (tablePage rows)
      (Or.inr ?_), hstatic]
    rw [hstatic]
    intro habs
    have hlen := congrArg List.length habs
    simp only [List.length_map, List.length_take, List.length_nil] at hlen
    rw [hrows] at hlen
    simp only [List.length_cons] at hlen
    omega
  refine ⟨heq, ?_, ?_, ?_⟩
  · rw [heq]
    simp [List.length_take, Nat.min_comm]
  · rw [heq]
    have hmm : ((rows.take maxEntries).map (rowEntry sourceName)).map (fun e => e.url) =
        (rows.take maxEntries).map (fun r => r.href) := by
      rw [List.map_map]
      rfl
    rw [hmm]
    exact hnd.sublist ((List.take_sublist _ _).map _)
  · intro e he
    rw [heq] at he
    obtain ⟨r, hr, rfl⟩ := List.mem_map.mp he
    exact ⟨r, List.take_subset _ _ hr, rfl, rfl, rfl⟩

/-- Witness for C5: two well-formed rows with `max_entries = 1` yield
exactly the first row's entry. -/
theorem static_table_extraction_witness :
    fetchRejestrZmianOn errWorld "http://ex.pl/rejestr-zmian" "Powiat" 1
        (tablePage [⟨"Uchwała budżetowa", "http://ex.pl/b/1", "11/02/2026"⟩,
                    ⟨"Zarządzenie wójta", "http://ex.pl/b/2", "12/02/2026"⟩]) =
      (([⟨"Uchwała budżetowa", "http://ex.pl/b/1", "11/02/2026"⟩,
         ⟨"Zarządzenie wójta", "http://ex.pl/b/2", "12/02/2026"⟩] :
        List RowSpec).take 1).map (rowEntry "Powiat") ∧
    (fetchRejestrZmianOn errWorld "http://ex.pl/rejestr-zmian" "Powiat" 1
        (tablePage [⟨"Uchwała budżetowa", "http://ex.pl/b/1", "11/02/2026"⟩,
                    ⟨"Zarządzenie wójta", "http://ex.pl/b/2", "12/02/2026"⟩])).length =
      min 2 1 ∧
    ((fetchRejestrZmianOn errWorld "http://ex.pl/rejestr-zmian" "Powiat" 1
        (tablePage [⟨"Uchwała budżetowa", "http://ex.pl/b/1", "11/02/2026"⟩,
                    ⟨"Zarządzenie wójta", "http://ex.pl/b/2", "12/02/2026"⟩])).map
      (fun e => e.url)).Nodup ∧
    ∀ e ∈ fetchRejestrZmianOn errWorld "http://ex.pl/rejestr-zmian" "Powiat" 1
        (tablePage [⟨"Uchwała budżetowa", "http://ex.pl/b/1", "11/02/2026"⟩,
                    ⟨"Zarządzenie wójta", "http://ex.pl/b/2", "12/02/2026"⟩]),
      ∃ r ∈ ([⟨"Uchwała budżetowa", "http://ex.pl/b/1", "11/02/2026"⟩,
              ⟨"Zarządzenie wójta", "http://ex.pl/b/2", "12/02/2026"⟩] : List RowSpec),
        e.title = pyStrip r.title ∧ e.url = r.href ∧ e.published = some r.date :=
  static_table_extraction errWorld "http://ex.pl/rejestr-zmian" "Powiat" 1
    [⟨"Uchwała budżetowa", "http://ex.pl/b/1", "11/02/2026"⟩,
     ⟨"Zarządzenie wójta", "http://ex.pl/b/2", "12/02/2026"⟩]
    (by decide) (by decide) (by decide) (by decide)

/-! ## Claim C10 -/

/-- Claim C10: the date-cell heuristic yields no date for a cell whose
stripped text is empty or longer than 60 characters, regardless of any
date-shaped substring in it. -/
theorem date_cell_rejects_empty_or_long (cell : Node)
    (h : pyStrip cell.getText = "" ∨ 60 < (pyStrip cell.getText).length) :
    extractDateFromCell cell = none := by
  unfold extractDateFromCell
  split
  · rfl
  · dsimp only
    rcases h with h | h <;> simp [h]

/-- Witness for C10: a 61-character cell text containing the numeric date
shape `11/02/2026` still yields no date. -/
theorem date_cell_rejects_long_witness :
    (60 < (pyStrip longDateCell.getText).length ∧
      searchNumericDate (pyStrip longDateCell.getText) = true) ∧
    extractDateFromCell longDateCell = none :=
  ⟨⟨by decide, by decide⟩,
   date_cell_rejects_empty_or_long longDateCell (Or.inr (by decide))⟩

end BipScraper
